import Mathlib

/-!
Verification development for the multi-staged GraphQL executor
(js-graphql-multistaged-executor).

The TypeScript sources are shallowly embedded:
* JS values (`null`/`undefined`/numbers/strings/booleans/arrays/objects,
  plus opaque deferred backend expressions) become the inductive `Value`;
* `graphql/jsutils/Path` linked lists become `Path := List Seg` with the
  most recently added key at the head (`addPath` is `cons`,
  `pathToArray` is `reverse`);
* exceptions become `Except`; a thrown host `Error` is `ExpandErr.host`,
  a thrown `GraphQLError` is `ExpandErr.gql` carrying its path;
* unbounded loops and non-structural recursion take an explicit fuel
  argument so that every definition stays executable by kernel reduction;
  the fuel-exhaustion branches are unreachable for the inputs the
  theorems quantify over.
-/

namespace MSE

/-- A path segment: JS `string | number`.  The list-index placeholder
sentinel `'[]'` of the source is `Seg.s "[]"`. -/
inductive Seg where
  | s (v : String)
  | n (v : Nat)
deriving DecidableEq, Repr

/-- The `'[]'` sentinel used inside deferred paths. -/
def listPlaceholder : Seg := .s "[]"

def isNumSeg : Seg → Bool
  | .n _ => true
  | _ => false

/-- JS runtime values as seen by the executor.  `vdefer` is an opaque
deferred backend expression (`backend.isDeferredValue` recognises it). -/
inductive Value where
  | vnull
  | vundef
  | vint (i : Int)
  | vstr (s : String)
  | vbool (b : Bool)
  | varr (elems : List Value)
  | vobj (fields : List (String × Value))
  | vdefer (id : Nat)
deriving Repr

/-- `isNullValue` from `src/utils.ts`: `value === null || value === undefined`. -/
def isNullValue : Value → Bool
  | .vnull => true
  | .vundef => true
  | _ => false

def isDeferredValue : Value → Bool
  | .vdefer _ => true
  | _ => false

def isArrayValue : Value → Bool
  | .varr _ => true
  | _ => false

/-- JS property access `obj[key]`: looks up a string key on an object or a
numeric index on an array; anything else yields `undefined`. -/
def getProp : Value → Seg → Value
  | .vobj fields, .s key =>
    match fields.lookup key with
    | some v => v
    | none => .vundef
  | .varr elems, .n i => elems.getD i .vundef
  | _, _ => (.vundef)

/-- JS optional-chained access `obj?.[key]`. -/
def getPropOpt (v : Value) (k : Seg) : Value :=
  if isNullValue v then .vundef else getProp v k

/-- `graphql/jsutils/Path`, with the latest key at the head; the empty
list plays the role of `undefined`. -/
abbrev Path := List Seg

/-- `addPath(prev, key)` (type names are threaded through unchanged by the
source and never read by the code under verification, so they are dropped). -/
def addPath (p : Path) (k : Seg) : Path := k :: p

/-- `pathToArray`: root-first array of segments. -/
def pathToArray (p : Path) : List Seg := p.reverse

/-- `reversePath` from `src/expand.ts`. -/
def reversePath (p : Path) : Path := p.reverse

/-- `concatPath` from `src/expand.ts`: appends `b` below `a`. -/
def concatPath (a b : Path) : Path := b ++ a

/-- A recorded `GraphQLError`: its message and optional path. -/
structure GErr where
  message : String
  path? : Option (List Seg)
deriving DecidableEq, Repr

/-- `partition` from `src/utils.ts` (also exported by
`src/backends/faunadb.ts`): first component collects the elements
satisfying the predicate, in order. -/
def partitionJS (pred : α → Bool) (arr : List α) : List α × List α :=
  arr.foldl
    (fun acc item => if pred item then (acc.1 ++ [item], acc.2) else (acc.1, acc.2 ++ [item]))
    ([], [])

/-! ### Middleware composition (`flattenMiddleware`, `src/backends/faunadb.ts`) -/

/-- The argument accepted by `flattenMiddleware`: a single middleware, an
array of middlewares, or `undefined`. -/
inductive MWArg (F : Type u) where
  | fn (m : F → F)
  | arr (l : List (F → F))
  | undef

/-- `flattenMiddleware`: a lone function is returned as-is, a singleton
array returns its element, otherwise the array is `reduceRight`-composed
onto the identity (so the rightmost middleware wraps the base first);
`undefined` behaves like the empty array. -/
def flattenMiddleware {F : Type u} : MWArg F → F → F
  | .fn m => m
  | .arr [m] => m
  | .arr l => l.foldr (fun middleware stack => fun next => middleware (stack next)) (fun next => next)
  | .undef => fun next => next

/-! ### Result-error deduplication (`getResult`, `src/executor.ts` lines 470-482,
and the identical loop at the end of the `execute` in `src/unnamed/part_000`) -/

/-- One iteration of the dedupe loop.  The state is the `fingerprints` set
(as an insertion-ordered list) and the output `result.errors` array.  The
source guard is `if (fingerprints.has(fingerprint) && fingerprints.add(fingerprint)) continue;`
so `Set.prototype.add` only ever runs when `has` already returned `true`,
in which case adding the member again leaves the set unchanged. -/
def dedupeErrorsStep (fp : GErr → String) (acc : List String × List GErr) (error : GErr) :
    List String × List GErr :=
  let fingerprint := fp error
  if acc.1.contains fingerprint then (acc.1, acc.2)
  else (acc.1, acc.2 ++ [error])

/-- The dedupe loop of `getResult`, parameterised by the JSON fingerprint
function (`JSON.stringify`). -/
def dedupeResultErrors (fp : GErr → String) (resultErrors : List GErr) : List GErr :=
  (resultErrors.foldl (dedupeErrorsStep fp) ([], [])).2

/-! ### `zip` (`src/backends/faunadb.ts`) and the batch-result installation
loop of `execute` (`src/executor.ts` lines 374-396) -/

/-- `zip(a, b)`: `Array.from({length: min}, (_, i) => [a[i], b[i]])`. -/
def zipJS {α β : Type} (a : List α) (b : List β) : List (α × β) :=
  (List.range (min a.length b.length)).attach.map fun i =>
    (a.get ⟨i.1, lt_of_lt_of_le (List.mem_range.mp i.2) (Nat.min_le_left _ _)⟩,
     b.get ⟨i.1, lt_of_lt_of_le (List.mem_range.mp i.2) (Nat.min_le_right _ _)⟩)

/-- `entries[i][0] = resolvedValue`: replace the value component of the
`i`-th entry, leaving its path untouched (out-of-range indices are
impossible in the source and leave the list unchanged here). -/
def setEntryValue (l : List (Value × List Seg)) (i : Nat) (v : Value) :
    List (Value × List Seg) :=
  l.enum.map fun p => if p.1 = i then (v, p.2.2) else p.2

/-- The `#step2_evaluate` drain of `execute`: collect the indices of the
entries holding deferred values, zip them with the backend results, and
write each result back into its entry.  When the backend returns fewer
results than there are deferred entries, `zip` silently truncates. -/
def installDeferredResults (isDef : Value → Bool) (entries : List (Value × List Seg))
    (results : List Value) : List (Value × List Seg) :=
  let originalIndices := ((entries.enum).filter fun p => isDef p.2.1).map fun p => p.1
  (zipJS originalIndices results).foldl (fun es pr => setEntryValue es pr.1 pr.2) entries

/-- The same drain viewed together with the `#resultErrors` accumulator:
the source block contains no `resultErrors.push`, so the error list passes
through unchanged. -/
def evaluatePhase (isDef : Value → Bool) (entries : List (Value × List Seg))
    (results : List Value) (resultErrors : List GErr) :
    List (Value × List Seg) × List GErr :=
  (installDeferredResults isDef entries results, resultErrors)

/-! ### The path-expand engine (`src/expand.ts`) -/

/-- An exception escaping `expandFromObject`: either a host-language
`Error` (a programmer-invariant panic) or a `GraphQLError` carrying a
path.  Message strings keep the stable prefix of the source message; the
`JSON.stringify` interpolations are omitted. -/
inductive ExpandErr where
  | host (message : String)
  | gql (message : String) (path : List Seg)
deriving DecidableEq, Repr

/-- `didParentError` (`src/expand.ts` lines 10-23): some recorded error has
a path that is a segment-wise prefix of (or equal to) `path`. -/
def didParentError (path : List Seg) (errors : List GErr) : Bool :=
  errors.any fun error =>
    match error.path? with
    | none => false
    | some errorPath =>
      if path.length < errorPath.length then false
      else (errorPath.zip path).all fun p => p.1 == p.2

/-- Loop body of `selectFromObject` (`src/utils.ts`): checks the backend
error annotation before each step, then descends with `obj?.[key]`.  The
thrown `GraphQLError` path is the prefix of the *argument* path walked so
far. -/
def selectFromObjectGo (gem : Value → Option String) (full : List Seg) :
    List Seg → Nat → Value → Except ExpandErr Value
  | [], _, obj => .ok obj
  | key :: rest, i, obj =>
    match gem obj with
    | some errorMessage => .error (.gql errorMessage (full.take i))
    | none => selectFromObjectGo gem full rest (i + 1) (getPropOpt obj key)

def selectFromObject (gem : Value → Option String) (obj : Value) (path : List Seg) :
    Except ExpandErr Value :=
  selectFromObjectGo gem path path 0 obj

/-- JS `Array.prototype.slice(0, e)` with a possibly negative end index. -/
def jsSliceTo (l : List α) (e : Int) : List α :=
  if e < 0 then l.take ((l.length : Int) + e).toNat else l.take e.toNat

/-- First index `≥ start` at which `x` occurs (JS `indexOf(x, start)`). -/
def indexOfFrom (l : List Seg) (x : Seg) (start : Nat) : Option Nat :=
  (List.findIdx? (· == x) (l.drop start)).map (· + start)

/-- Does `pathArray.slice(pos, pos + errPath.length)` agree with `errPath`
on every position the slice has?  (The JS `some` only inspects existing
slice elements, so a short slice that matches a prefix of `errPath` counts
as a match.) -/
def sliceMatches (pathArray errPath : List Seg) (pos : Nat) : Bool :=
  (((pathArray.drop pos).take errPath.length).zip errPath).all fun p => p.1 == p.2

/-- The do-while search of `fixErrorPath`: repeatedly `indexOf` the first
element of `errPath` and stop at the first occurrence where the slice
matches.  `fuel := pathArray.length + 1` always suffices because the start
index strictly increases and stays below the length. -/
def searchErrPos (pathArray errPath : List Seg) : Nat → Nat → Option Nat
  | 0, _ => none
  | fuel + 1, start =>
    match indexOfFrom pathArray (errPath.headD (.s "")) start with
    | none => none
    | some pos =>
      if sliceMatches pathArray errPath pos then some pos
      else searchErrPos pathArray errPath fuel (pos + 1)

/-- `fixErrorPath` (`src/expand.ts` lines 49-72).  Note that when the
search gives up (`pos === -1`) the `realPath = pathArray` assignment is
immediately overwritten by `pathArray.slice(0, pos + errPath.length)`
after the loop, which this translation reproduces. -/
def fixErrorPath (errPath0 pathArray deferredPath : List Seg) : List Seg :=
  let errPath := match errPath0 with
    | k :: rest => if isNumSeg k then rest else errPath0
    | [] => ([] : List Seg)
  let fixedDeferredPathLength : Int :=
    (deferredPath.length : Int) -
      (match deferredPath with
       | k :: _ => if isNumSeg k then (1 : Int) else 0
       | [] => 0)
  match errPath with
  | [] => jsSliceTo pathArray (-fixedDeferredPathLength)
  | _ :: _ =>
    match searchErrPos pathArray errPath (pathArray.length + 1) 0 with
    | some pos => pathArray.take (pos + errPath.length)
    | none => jsSliceTo pathArray ((errPath.length : Int) - 1)

/-- The matching-suffix scan of `expandFromObject` (lines 113-120):
compare the two arrays from their ends and stop at the first mismatch. -/
def matchingSuffixLenGo : List Seg → List Seg → Nat
  | x :: xs, y :: ys => if x = y then matchingSuffixLenGo xs ys + 1 else 0
  | _, _ => 0

def matchingSuffixLen (a b : List Seg) : Nat :=
  matchingSuffixLenGo a.reverse b.reverse

/-- Lines 122-125: move `n` segments from the reversed path onto the
output-path accumulator.  `pathSuffix!` on `undefined` is a host crash. -/
def movePrefix : Nat → Path → Path → Except ExpandErr (Path × Path)
  | 0, pre, suf => .ok (pre, suf)
  | i + 1, pre, suf =>
    match suf with
    | [] => .error (.host "TypeError: pathSuffix is undefined")
    | k :: rest => movePrefix i (addPath pre k) rest

/-- Outcome of the prefix-selection and matching-suffix walk: either the
function returned early with a single pair (always a null-ish value), or
the walk finished with the current object and path accumulators. -/
inductive WalkOut where
  | done (pre : Path) (value : Value)
  | cont (obj : Value) (pre : Path) (suf : Path)
deriving Repr

/-- The matching-suffix loop (lines 133-149): null short-circuit, backend
error annotation, then move one segment and descend. -/
def walkSuffix (gem : Value → Option String) (deferredPath : List Seg) :
    List Seg → Nat → Value → Path → Path → Except ExpandErr WalkOut
  | [], _, obj, pre, suf => .ok (.cont obj pre suf)
  | key :: rest, i, obj, pre, suf =>
    if isNullValue obj then .ok (.done pre obj)
    else
      match gem obj with
      | some errorMessage => .error (.gql errorMessage (deferredPath.take (i + 1)))
      | none =>
        match suf with
        | [] => .error (.host "TypeError: pathSuffix is undefined")
        | k :: suf2 =>
          walkSuffix gem deferredPath rest (i + 1) (getProp obj key) (addPath pre k) suf2

/-- The `try` block of `expandFromObject` (lines 105-149): split the
pre-placeholder parts of the two paths at their matching suffix, descend
through the non-matching deferred prefix with `selectFromObject`, then
walk the matching suffix. -/
def expandCore (gem : Value → Option String) (obj : Value) (deferredPath : List Seg)
    (path : Path) : Except ExpandErr WalkOut :=
  let pathArray := pathToArray path
  let fd := deferredPath.findIdx (· == listPlaceholder)
  let fp := pathArray.findIdx (· == listPlaceholder)
  let preArrayDeferredPath := deferredPath.take fd
  let preArrayPathArray := pathArray.take fp
  let suffixLength := matchingSuffixLen preArrayPathArray preArrayDeferredPath
  do
    let moved ← movePrefix (preArrayPathArray.length - suffixLength) [] (reversePath path)
    let obj1 ← selectFromObject gem obj
      (preArrayDeferredPath.take (preArrayDeferredPath.length - suffixLength))
    if isNullValue obj1 then
      pure (.done moved.1 obj1)
    else
      walkSuffix gem deferredPath
        (preArrayDeferredPath.drop (preArrayDeferredPath.length - suffixLength))
        0 obj1 moved.1 moved.2

/-- `shouldExcludeResult?.(deferredPath, obj)`. -/
def applyExclude (shouldExcludeResult : Option (List Seg → Value → Bool))
    (deferredPath : List Seg) (v : Value) : Bool :=
  match shouldExcludeResult with
  | some f => f deferredPath v
  | none => false

/-- `expandFromObject` (`src/expand.ts` lines 74-229), with an explicit
fuel bound for the recursion over array elements; each recursive call
strictly shortens the deferred path, so `deferredPath.length + 1` fuel
(supplied by the wrapper below) can never run out.  The mismatch of the
middle parts is `deferredPathMiddle ≠ pathArrayMiddle` (the source tests
the lengths and then element-wise disagreement, which is the same
condition).  The recursion on array elements passes the original
`shouldExcludeResult` through, exactly as line 211 of the source does
(the curried `shouldExcludeResultFn` built just above it is never used). -/
def expandGo (gem : Value → Option String) (resultErrors : List GErr)
    (shouldExcludeResult : Option (List Seg → Value → Bool)) :
    Nat → Value → List Seg → Path → Except ExpandErr (List (Path × Value))
  | 0, _, _, _ => .error (.host "expandFromObject: recursion fuel exhausted")
  | fuel + 1, obj, deferredPath, path =>
    if applyExclude shouldExcludeResult deferredPath obj then .ok []
    else if didParentError (pathToArray path) resultErrors then .ok []
    else match deferredPath with
      | [] => .ok [(path, obj)]
      | _ :: _ =>
        let pathArray := pathToArray path
        let arrayIndexPlaceholderCount := (deferredPath.filter (· == listPlaceholder)).length
        if arrayIndexPlaceholderCount ≠ (pathArray.filter (· == listPlaceholder)).length then
          .error (.host "expandFromObject: arraysFromPath !== arraysFromDeferred")
        else
          let fd := deferredPath.findIdx (· == listPlaceholder)
          let fp := pathArray.findIdx (· == listPlaceholder)
          if arrayIndexPlaceholderCount > 1 ∧
              deferredPath.drop (fd + 1) ≠ pathArray.drop (fp + 1) then
            .error (.host "expandFromObject: pathArrayMiddle !== deferredPathMiddle")
          else
            match expandCore gem obj deferredPath path with
            | .error (.host m) => .error (.host m)
            | .error (.gql m p) => .error (.gql m (fixErrorPath p pathArray deferredPath))
            | .ok (.done pre v) => .ok [(pre, v)]
            | .ok (.cont obj2 pre2 suf2) =>
              if isNullValue obj2 then .ok [(pre2, obj2)]
              else if suf2.head? ≠ some listPlaceholder then
                match pre2 with
                | [] => .error (.host "expandFromObject: pathPrefix is undefined")
                | _ :: _ => .ok [(pre2, obj2)]
              else
                let suf3 := suf2.tail
                let arrayPath := pathToArray pre2
                match obj2 with
                | .varr [] =>
                  match pre2 with
                  | [] => .error (.host "expandFromObject: pathPrefix is undefined")
                  | _ :: _ => .ok [(pre2, Value.varr [])]
                | .varr elems =>
                  let pathSuffix2 := reversePath suf3
                  do
                    let results ← elems.enum.mapM fun pr =>
                      match expandGo gem resultErrors shouldExcludeResult fuel pr.2
                          (deferredPath.drop (fd + 1)) pathSuffix2 with
                      | .ok pairs =>
                        Except.ok (pairs.map fun cp =>
                          (concatPath (addPath pre2 (Seg.n pr.1)) cp.1, cp.2))
                      | .error (.gql m ep) =>
                        Except.error (ExpandErr.gql m (arrayPath ++ [Seg.n pr.1] ++ ep))
                      | .error (.host m) => Except.error (ExpandErr.host m)
                    pure results.flatten
                | _ => .error (.gql "Expected array" arrayPath)

/-- `expandFromObject` proper: the fuel can never be exhausted because the
deferred path strictly shortens at every recursive call. -/
def expandFromObject (gem : Value → Option String) (resultErrors : List GErr)
    (shouldExcludeResult : Option (List Seg → Value → Bool)) (obj : Value)
    (deferredPath : List Seg) (path : Path) : Except ExpandErr (List (Path × Value)) :=
  expandGo gem resultErrors shouldExcludeResult (deferredPath.length + 1) obj deferredPath path

/-- `equivalentPathKey` (`src/unnamed/part_000` lines 123-129). -/
def equivalentPathKey : Option Seg → Option Seg → Bool
  | a, b =>
    a == b ||
    (match a, b with
     | some (.n _), some x => x == listPlaceholder
     | _, _ => false) ||
    (match a, b with
     | some x, some (.n _) => x == listPlaceholder
     | _, _ => false)

/-! ### The selection flattener (`src/unnamed/part_001` and `part_002`) -/

/-- An argument or directive AST node: the `loc` component stands for the
source-location data the dedupe comparison strips, everything else for
the JSON-serialisable remainder. -/
structure ArgNode where
  name : String
  value : String
  loc : Option Nat
deriving DecidableEq, Repr

mutual
inductive FieldNode where
  | mk (alias? : Option String) (name : String) (arguments : List ArgNode)
       (directives : List ArgNode) (selectionSet : Option SelectionSetNode)
inductive SelectionSetNode where
  | mk (selections : List SelectionNode)
inductive SelectionNode where
  | field (node : FieldNode)
  | inlineFragment (typeCondition : Option String) (selectionSet : SelectionSetNode)
  | fragmentSpread (name : String)
end

def FieldNode.aliasOpt : FieldNode → Option String
  | .mk a _ _ _ _ => a

def FieldNode.name : FieldNode → String
  | .mk _ n _ _ _ => n

def FieldNode.arguments : FieldNode → List ArgNode
  | .mk _ _ args _ _ => args

def FieldNode.directives : FieldNode → List ArgNode
  | .mk _ _ _ dirs _ => dirs

def FieldNode.selectionSet : FieldNode → Option SelectionSetNode
  | .mk _ _ _ _ ss => ss

def SelectionSetNode.selections : SelectionSetNode → List SelectionNode
  | .mk sels => sels

/-- `fieldNodeKey` / the dedupe key: `node.alias?.value ?? node.name.value`. -/
def fieldNodeKey (node : FieldNode) : String :=
  (node.aliasOpt).getD node.name

/-- A GraphQL object or interface type as `satisfiesTypeCondition` sees
it: a name and the transitively inspectable implemented interfaces. -/
inductive GType where
  | mk (name : String) (interfaces : List GType)

def GType.name : GType → String
  | .mk n _ => n

def GType.interfaces : GType → List GType
  | .mk _ ifaces => ifaces

/-- A fragment definition: its optional type condition and selection set. -/
structure FragmentDef where
  typeCondition : Option String
  selectionSet : SelectionSetNode

/-- `satisfiesTypeCondition` (`src/unnamed/part_001` lines 30-46): the
condition names the type itself, or a union containing it, or an
interface it (transitively) implements.  The fuel bounds the recursion
through the interface graph (acyclic in every GraphQL schema, so any
fuel beyond its depth gives the source behaviour). -/
def satisfiesTypeCondition (unionMap : List (String × List String)) :
    Nat → GType → String → Bool
  | 0, _, _ => false
  | fuel + 1, t, condition =>
    if condition == t.name then true
    else if (match unionMap.lookup condition with
             | some members => members.contains t.name
             | none => false) then true
    else t.interfaces.any fun iface =>
      satisfiesTypeCondition unionMap fuel iface condition

/-- Failures of the selection flattener (thrown `Error`s in the source,
plus the fuel guard for the fragment-spread recursion, which can only
fire on fragment cycles that would make the source recurse forever). -/
inductive SelErr where
  | missingFragment (name : String)
  | duplicateArguments (key : String)
  | duplicateDirectives (key : String)
  | fuelExhausted
deriving DecidableEq, Repr

/-- Strip the source locations before comparing: the source compares
`JSON.stringify(nodes, (k, v) => k === "loc" ? undefined : v)` strings,
and that serialisation is injective on the remaining components. -/
def stripLocArgs (args : List ArgNode) : List (String × String) :=
  args.map fun a => (a.name, a.value)

/-- The duplicate-merge of `dedupeSelection` (lines 184-196): when both
nodes carry a selection set the merged node keeps the existing node's
fields with the two selection lists concatenated; otherwise the existing
node is kept unchanged. -/
def mergeSelectionSets (existing node : FieldNode) : FieldNode :=
  match existing, node with
  | .mk a n args dirs (some (.mk sels1)), .mk _ _ _ _ (some (.mk sels2)) =>
    .mk a n args dirs (some (.mk (sels1 ++ sels2)))
  | e, _ => e

/-- Replace the value stored under `key` in the insertion-ordered record. -/
def updateRecord (l : List (String × FieldNode)) (key : String) (v : FieldNode) :
    List (String × FieldNode) :=
  l.map fun p => if p.1 = key then (p.1, v) else p

/-- The loop of `dedupeSelection` (`src/unnamed/part_002` lines 146-200).
`fieldsByKey` is an insertion-ordered string-keyed record (GraphQL
response keys are never array indices, so JS object key order is
insertion order, and `Object.values` returns the values in that order). -/
def dedupeSelectionGo : List (String × FieldNode) → List FieldNode →
    Except SelErr (List (String × FieldNode))
  | acc, [] => .ok acc
  | acc, node :: rest =>
    let key := fieldNodeKey node
    match acc.lookup key with
    | none => dedupeSelectionGo (acc ++ [(key, node)]) rest
    | some existing =>
      if stripLocArgs existing.arguments ≠ stripLocArgs node.arguments then
        .error (.duplicateArguments key)
      else if stripLocArgs existing.directives ≠ stripLocArgs node.directives then
        .error (.duplicateDirectives key)
      else dedupeSelectionGo (updateRecord acc key (mergeSelectionSets existing node)) rest

def dedupeSelection (fieldNodes : List FieldNode) : Except SelErr (List FieldNode) :=
  (dedupeSelectionGo [] fieldNodes).map fun acc => acc.map (·.2)

/-- `selectionFields` (`src/unnamed/part_002` lines 202-257): flatten the
selection set against a concrete type and dedupe the result.  An inline
fragment or fragment spread is skipped when
`!node.typeCondition || !satisfiesTypeCondition(...)` holds, so a missing
type condition causes the branch to be dropped. -/
def selectionFields (fragmentMap : List (String × FragmentDef))
    (unionMap : List (String × List String)) :
    Nat → List SelectionNode → GType → Except SelErr (List FieldNode)
  | 0, _, _ => .error .fuelExhausted
  | fuel + 1, selections, type' => do
    let parts ← selections.mapM fun node =>
      match node with
      | .field f => Except.ok [f]
      | .inlineFragment typeCondition selectionSet =>
        if (match typeCondition with
            | none => true
            | some cond => !satisfiesTypeCondition unionMap fuel type' cond) then
          Except.ok []
        else
          selectionFields fragmentMap unionMap fuel selectionSet.selections type'
      | .fragmentSpread name =>
        match fragmentMap.lookup name with
        | none => Except.error (.missingFragment name)
        | some fragment =>
          if (match fragment.typeCondition with
              | none => true
              | some cond => !satisfiesTypeCondition unionMap fuel type' cond) then
            Except.ok []
          else
            selectionFields fragmentMap unionMap fuel fragment.selectionSet.selections type'
    dedupeSelection parts.flatten

/-! ### The validation/shaping pass of `src/executor.ts`
(`#getValidatedValueRecursive`, lines 548-688, and
`#getValidatedObjectValue`, lines 487-546) -/

/-- A GraphQL output type as the validator inspects it.  An object type
carries the selected fields directly (the source obtains them through
`getFieldDef` and `selectionFields`; fusing schema and selection this way
only pre-computes those pure lookups).  `abstractT` stands for interface
and union types, whose concrete selected fields come from the
type-resolver oracle. -/
inductive VType where
  | nonNull (ofType : VType)
  | vlist (ofType : VType)
  | scalarT (name : String)
  | enumT (name : String)
  | objectT (fields : List (String × VType))
  | abstractT (name : String)

def isNonNullT : VType → Bool
  | .nonNull _ => true
  | _ => false

/-- The validator.  `gem` is `backend.getErrorMessage`, `ser` the
middleware-selected leaf serializer (an `Except.error` is a serializer
throw), `tr` the type resolver for abstract types (`none` means it failed
to produce an object type, in which case `#resolveType` records the error
and `#getValidatedValueRecursive` returns `undefined`).

The result pairs the errors pushed onto `#resultErrors` with either the
validated value or a thrown error (which the per-field `.catch` of
`#getValidatedObjectValue` converts into a recorded error and a `null`
field value).

The fuel is consumed once per `NonNull` peel, list level and object
level; it exists only because the abstract-type recursion is not
structural, and every theorem below supplies enough of it.  The source
checks `isNullValue(fieldValue)` once, between the `NonNull` peel and the
type dispatch; here that single check is duplicated into each
non-`NonNull` match arm, which is the same control flow. -/
def validateValue (gem : Value → Option String) (ser : Value → Except String Value)
    (tr : Value → Option (List (String × VType))) :
    Nat → Value → VType → List Seg → List GErr × Except GErr Value
  | 0, _, _, _ => ([], .error (GErr.mk "validation fuel exhausted" none))
  | fuel + 1, fieldValue, fieldType, path =>
    match gem fieldValue with
    | some errorMessage => ([⟨errorMessage, some path⟩], .ok .vnull)
    | none =>
      let goObject : List (String × VType) → List GErr × Except GErr Value := fun fields =>
        let fieldValues := fields.map fun pr =>
          let fieldPath := path ++ [Seg.s pr.1]
          let r := validateValue gem ser tr fuel (getPropOpt fieldValue (Seg.s pr.1)) pr.2 fieldPath
          match r.2 with
          | .ok v => (r.1, pr.1, pr.2, v)
          | .error e =>
            (r.1 ++ [GErr.mk e.message (some (e.path?.getD fieldPath))], pr.1, pr.2, Value.vnull)
        let errs := (fieldValues.map (·.1)).flatten
        if fieldValues.any (fun fv => isNonNullT fv.2.2.1 && isNullValue fv.2.2.2) then
          (errs, .ok .vnull)
        else
          (errs, .ok (.vobj (fieldValues.map fun fv => (fv.2.1, fv.2.2.2))))
      match fieldType with
      | .nonNull inner =>
        if isNullValue fieldValue then
          ([⟨"Cannot return null for non-nullable field", some path⟩], .ok .vnull)
        else
          validateValue gem ser tr fuel fieldValue inner path
      | .vlist inner =>
        if isNullValue fieldValue then ([], .ok .vnull)
        else
          match fieldValue with
          | .varr [] => ([], .ok (.varr []))
          | .varr elems =>
            let results := elems.enum.map fun pr =>
              validateValue gem ser tr fuel pr.2 inner (path ++ [Seg.n pr.1])
            let errs := (results.map (·.1)).flatten
            match results.findSome? (fun r =>
                match r.2 with
                | .error e => some e
                | .ok _ => none) with
            | some e => (errs, .error e)
            | none =>
              let vals := results.filterMap fun r =>
                match r.2 with
                | .ok v => some v
                | .error _ => none
              if isNonNullT inner && vals.any (fun v => isNullValue v) then
                (errs, .ok .vnull)
              else
                (errs, .ok (.varr (vals.filter fun v =>
                  match v with
                  | .vnull => false
                  | _ => true)))
          | _ => ([⟨"Cannot return non-list value for list field", some path⟩], .ok .vnull)
      | .scalarT _ =>
        if isNullValue fieldValue then ([], .ok .vnull)
        else
          match ser fieldValue with
          | .ok v => ([], .ok v)
          | .error m => ([], .error ⟨m, none⟩)
      | .enumT _ =>
        if isNullValue fieldValue then ([], .ok .vnull)
        else if isArrayValue fieldValue then
          ([⟨"Cannot return list value for non-list field", some path⟩], .ok .vnull)
        else
          match ser fieldValue with
          | .ok v => ([], .ok v)
          | .error m => ([], .error ⟨m, none⟩)
      | .objectT fields =>
        if isNullValue fieldValue then ([], .ok .vnull)
        else goObject fields
      | .abstractT _ =>
        if isNullValue fieldValue then ([], .ok .vnull)
        else
          match tr fieldValue with
          | none => ([⟨"Failed to resolve concrete type", some path⟩], .ok .vundef)
          | some fields => goObject fields

/-! ### The multi-stage scheduler loop (`src/unnamed/part_000`, `createExecuteFn`)

The five work queues, the batch accumulator and the outer loop are
modelled as an explicit state machine.  Everything the loop obtains from
external collaborators — `getFieldDef` plus the resolver invocation, the
backend's `expandChildren`/`expandAbstractType`, the type resolver, the
selection flattening of a materialised composite value, and the backend
batch call — is supplied by a fixed `Oracle` of pure functions, so one
oracle choice determines one execution.  Parent types are tracked by the
length of the `{type, parent}` chain, which is the only aspect of them
the loop's control flow reads (`reduce` walks the chain and throws
`Expected parent` when it runs out).  Queue FIFO discipline (`shift` from
the front, `push` to the back), the per-iteration locals
`step4_restage`/`step5_revalidate`/`deferredExprs`, and the placement of
every `try`/`catch` follow the source.  `batchCalls`, `slots` and
`restaged` are ghost counters: the number of `resolveDeferredValues`
calls, of fresh batch-slot allocations (`deferredExprs.push`), and of
restage tasks drained. -/

/-- A GraphQL output type as the scheduler inspects it. -/
inductive OutType where
  | nonNull (ofType : OutType)
  | list (ofType : OutType)
  | leaf (name : String) (isScalar : Bool)
  | object (name : String)
  | abstract (name : String)
deriving DecidableEq, Repr

/-- `getNamedType`. -/
def namedType : OutType → OutType
  | .nonNull t => namedType t
  | .list t => namedType t
  | t => t

def isLeafT : OutType → Bool
  | .leaf _ _ => true
  | _ => false

def isScalarT : OutType → Bool
  | .leaf _ isScalar => isScalar
  | _ => false

/-- Well-formedness of GraphQL type constructors: `GraphQLNonNull` can
never wrap another `GraphQLNonNull` (graphql-js enforces this at schema
construction). -/
def wfT : OutType → Bool
  | .nonNull (.nonNull _) => false
  | .nonNull t => wfT t
  | .list t => wfT t
  | _ => true

/-- The `deferral` carried by a field under a deferred ancestor: its
deferred-path prefix and the batch slot its `set` callback ultimately
re-installs (the backend's composite builders all funnel into one
`deferredExprs[index] = [expr, path]` assignment). -/
structure Deferral where
  slot : Nat
  path : List Seg

structure TaskResolve where
  prevPath : List Seg
  key : String
  hasSelection : Bool
  chain : Nat
  sourceValue : Value
  shouldExclude : Option (List Seg → Value → Bool)
  deferral : Option Deferral

structure TaskDisc where
  key : String
  hasSelection : Bool
  chain : Nat
  fieldType : OutType
  fieldValue : Value
  path : List Seg
  shouldExclude : Option (List Seg → Value → Bool)
  deferral : Option Deferral

structure TaskVal where
  key : String
  hasSelection : Bool
  chain : Nat
  fieldType : OutType
  fieldValue : Value
  path : List Seg

structure TaskRestage where
  key : String
  hasSelection : Bool
  chain : Nat
  prevPath : List Seg
  deferredPath : List Seg
  shouldExclude : Option (List Seg → Value → Bool)

structure TaskReval where
  key : String
  hasSelection : Bool
  chain : Nat
  fieldType : OutType
  fieldPath : List Seg
  deferredPath : List Seg
  shouldExclude : Option (List Seg → Value → Bool)

/-- Outcome of one resolver invocation (steps 3-6 of the resolve drain):
a settled value (possibly a deferred expression), the `NEXT_STAGE`
sentinel thrown by awaiting a wrapped value, or any other throw. -/
inductive ROutcome where
  | val (v : Value)
  | nextStage
  | err (message : String)

/-- One child descriptor produced by `backend.expandChildren` (or the
per-concrete-type expansion of `expandAbstractType`): its absolute path,
response key, whether its field node has a selection set, and its source
value. -/
structure Child where
  path : List Seg
  key : String
  hasSelection : Bool
  sourceValue : Value

/-- A field selected by `selectionFields` for a composite value. -/
structure SelField where
  key : String
  hasSelection : Bool

structure Oracle where
  /-- `getFieldDef(...).type` and the settled resolver outcome for a
  resolve task (the `__typename` override resolver of abstract dispatch
  is part of this function). -/
  resolve : TaskResolve → OutType × ROutcome
  /-- Is `backend.expandAbstractType` present? -/
  hasExpandAbstract : Bool
  /-- The flattened child descriptors pushed for a composite deferred
  value (object branch, or the union of the per-concrete-type expansions
  in the abstract branch). -/
  children : TaskDisc → List Child
  /-- The `shouldExcludeResultNext` predicate built in the abstract
  branch. -/
  exclude : TaskDisc → Option (List Seg → Value → Bool)
  /-- Did the type resolver of the validate drain produce an object
  type? -/
  typeResolve : TaskVal → Bool
  /-- `selectionFields` applied to a validated composite value's
  selection set. -/
  childFields : TaskVal → List SelField
  /-- The settled result of the n-th `resolveDeferredValues` call. -/
  batchResult : Nat → Except String Value
  /-- `backend.getErrorMessage` (the constantly-`none` function when the
  backend does not supply it). -/
  gem : Value → Option String

structure St where
  q1 : List TaskResolve
  q2 : List TaskDisc
  q3 : List TaskVal
  q4 : List TaskRestage
  q5 : List TaskReval
  batch : List (Value × List Seg)
  completed : List (List Seg × Value)
  errors : List GErr
  lastBatch : Value
  batchCalls : Nat
  slots : Nat
  restaged : Nat

/-- `deferredExprs[index] = [expr, path]` through a deferral's `set`
callback: the stored path was captured at slot creation. -/
def setSlot (batch : List (Value × List Seg)) (i : Nat) (v : Value) :
    List (Value × List Seg) :=
  batch.enum.map fun p => if p.1 = i then (v, p.2.2) else p.2

/-- Walking `parentType.parent` up `hops` times from a chain of length
`chain`; `Expected parent` when the chain runs out. -/
def walkUp (chain hops : Nat) : Except String Nat :=
  if hops < chain then .ok (chain - hops) else .error "Expected parent"

/-- One `step1_resolve` task (lines 359-436).  On a normal completion the
field goes to `step2_discriminate`; on `NEXT_STAGE` the deferral (if any)
re-installs the source and the field goes to `step4_restage`; on a
missing deferral or any other throw a `GraphQLError` at the field's path
is recorded. -/
def resolveStep (or : Oracle) (s : St) (t : TaskResolve) : St :=
  let path := t.prevPath ++ [Seg.s t.key]
  match or.resolve t with
  | (fieldType, .val v) =>
    { s with q2 := s.q2 ++ [{ key := t.key, hasSelection := t.hasSelection, chain := t.chain,
                              fieldType := fieldType, fieldValue := v, path := path,
                              shouldExclude := t.shouldExclude, deferral := t.deferral }] }
  | (_, .nextStage) =>
    match t.deferral with
    | none => { s with errors := s.errors ++ [⟨"expected deferral value", some path⟩] }
    | some d =>
      { s with batch := setSlot s.batch d.slot t.sourceValue,
               q4 := s.q4 ++ [{ key := t.key, hasSelection := t.hasSelection, chain := t.chain,
                                prevPath := t.prevPath,
                                deferredPath := d.path ++ [Seg.s t.key],
                                shouldExclude := t.shouldExclude }] }
  | (_, .err m) => { s with errors := s.errors ++ [⟨m, some path⟩] }

/-- `arrayNewElems` (lines 213-229). -/
def arrayNewElems (prev next : List Seg) : Except String (List Seg) :=
  if prev.length = next.length then .ok []
  else if prev.length > next.length then .error "arrayNewElems: prev.length > next.length"
  else if (prev.zip next).all (fun p => p.1 == p.2) then .ok (next.drop prev.length)
  else .error "arrayNewElems: prev[i] !== next[i]"

/-- Push one `FieldToResolve` per expanded child (lines 568-592): each
child's deferral records the parent's batch slot and the deferred path
extended by the new output segments; a throw from `arrayNewElems` aborts
the whole push and is recorded (the enclosing `catch`). -/
def pushChildren (s : St) (t : TaskDisc) (cs : List Child) (dp : List Seg) (slot : Nat)
    (ex : Option (List Seg → Value → Bool)) : St :=
  match cs.mapM (fun ch => (arrayNewElems t.path ch.path).map fun newSegs =>
      ({ prevPath := ch.path, key := ch.key, hasSelection := ch.hasSelection,
         chain := t.chain + 1, sourceValue := ch.sourceValue,
         shouldExclude := ex, deferral := some ⟨slot, dp ++ newSegs⟩ } : TaskResolve)) with
  | .ok ts => { s with q1 := s.q1 ++ ts }
  | .error m => { s with errors := s.errors ++ [⟨m, some t.path⟩] }

/-- One `step2_discriminate` task (lines 438-602).  A value that is not
deferred and sits under no unresolved list placeholder goes straight to
`step3_validate`; otherwise it is installed into the batch (through the
deferral, or into a fresh slot), and then dispatched on its named type:
leaves go to `step5_revalidate`, abstract types fan out through
`expandAbstractType` (an error is recorded when the backend lacks it),
object types through `expandChildren`. -/
def discStep (or : Oracle) (s : St) (t : TaskDisc) : St :=
  if !(isDeferredValue t.fieldValue) && !(t.path.contains listPlaceholder) then
    { s with q3 := s.q3 ++ [{ key := t.key, hasSelection := t.hasSelection, chain := t.chain,
                              fieldType := t.fieldType, fieldValue := t.fieldValue,
                              path := t.path }] }
  else
    let alloc : List Seg × Nat × List (Value × List Seg) × Nat :=
      match t.deferral with
      | some d => (d.path ++ [Seg.s t.key], d.slot, setSlot s.batch d.slot t.fieldValue, s.slots)
      | none =>
        ([Seg.n s.batch.length], s.batch.length, s.batch ++ [(t.fieldValue, t.path)], s.slots + 1)
    let s1 := { s with batch := alloc.2.2.1, slots := alloc.2.2.2 }
    if isLeafT (namedType t.fieldType) then
      { s1 with q5 := s1.q5 ++ [{ key := t.key, hasSelection := t.hasSelection, chain := t.chain,
                                  fieldType := t.fieldType, fieldPath := t.path,
                                  deferredPath := alloc.1, shouldExclude := t.shouldExclude }] }
    else
      match namedType t.fieldType with
      | .abstract _ =>
        if !or.hasExpandAbstract then
          { s1 with errors := s1.errors ++
              [⟨"eager determination of union and interface types are not supported yet for this backend",
                some t.path⟩] }
        else pushChildren s1 t (or.children t) alloc.1 alloc.2.1 (or.exclude t)
      | _ => pushChildren s1 t (or.children t) alloc.1 alloc.2.1 t.shouldExclude

/-- One `step3_validate` task (lines 604-757), after the single `NonNull`
peel. -/
def valStepPeeled (or : Oracle) (s : St) (t : TaskVal) (ft : OutType) : St :=
  if isNullValue t.fieldValue then
    { s with completed := s.completed ++ [(t.path, Value.vnull)] }
  else
    match ft with
    | .list elemT =>
      match t.fieldValue with
      | .varr [] => { s with completed := s.completed ++ [(t.path, t.fieldValue)] }
      | .varr elems =>
        { s with q3 := s.q3 ++ elems.enum.map fun pr =>
            { key := t.key, hasSelection := t.hasSelection, chain := t.chain,
              fieldType := elemT, fieldValue := pr.2, path := t.path ++ [Seg.n pr.1] } }
      | _ => { s with errors := s.errors ++ [⟨"Cannot return non-list value for list field", some t.path⟩] }
    | _ =>
      if isArrayValue t.fieldValue && !isScalarT ft then
        { s with errors := s.errors ++ [⟨"Cannot return list value for non-list field", some t.path⟩] }
      else if isLeafT ft then
        { s with completed := s.completed ++ [(t.path, t.fieldValue)] }
      else
        let resolved : Bool :=
          match ft with
          | .abstract _ => or.typeResolve t
          | _ => true
        if !resolved then
          { s with errors := s.errors ++ [⟨"Failed to resolve concrete type", some t.path⟩] }
        else if !t.hasSelection then
          { s with errors := s.errors ++
              [⟨"At least one selection must be provided for a composite type", some t.path⟩] }
        else
          { s with q1 := s.q1 ++ (or.childFields t).map fun f =>
              { prevPath := t.path, key := f.key, hasSelection := f.hasSelection,
                chain := t.chain + 1, sourceValue := t.fieldValue,
                shouldExclude := none, deferral := none } }

def valStep (or : Oracle) (s : St) (t : TaskVal) : St :=
  match t.fieldType with
  | .nonNull inner =>
    if isNullValue t.fieldValue then
      { s with errors := s.errors ++ [⟨"Cannot return null for non-nullable field", some t.path⟩] }
    else valStepPeeled or s t inner
  | ft => valStepPeeled or s t ft

/-- Convert a root-first segment array into a `Path`. -/
def toPath (forward : List Seg) : Path := forward.reverse

/-- Record the error produced by a throw out of `expandFromObject`
(message, with `e.path ?? pathToArray(fallback)`). -/
def catchExpandErr (e : ExpandErr) (fallback : List Seg) : GErr :=
  match e with
  | .gql m p => ⟨m, some p⟩
  | .host m => ⟨m, some fallback⟩

/-- One `step4_restage` task (lines 764-810): expand the batch results
along the deferred path, complete the pairs that landed above the
original field (or hold null), and requeue the rest as fresh
`FieldToResolve` tasks with their parent type walked up the chain. -/
def restageStep (or : Oracle) (s0 : St) (t : TaskRestage) : St :=
  let s := { s0 with restaged := s0.restaged + 1 }
  match expandFromObject or.gem s.errors t.shouldExclude s.lastBatch t.deferredPath
      (addPath (toPath t.prevPath) (Seg.s t.key)) with
  | .error e => { s with errors := s.errors ++ [catchExpandErr e t.prevPath] }
  | .ok pairs =>
    let parts := partitionJS
      (fun (pr : Path × Value) =>
        !(equivalentPathKey pr.1.tail.head? t.prevPath.getLast?) || isNullValue pr.2)
      pairs
    let fin := parts.1.map fun (pr : Path × Value) => (pathToArray pr.1, pr.2)
    let s1 := { s with completed := s.completed ++ fin }
    match parts.2.mapM (fun (pr : Path × Value) =>
        (walkUp t.chain (t.prevPath.length - (pathToArray pr.1).length)).map fun ch =>
          ({ prevPath := (pathToArray pr.1).dropLast, key := t.key,
             hasSelection := t.hasSelection, chain := ch, sourceValue := pr.2,
             shouldExclude := none, deferral := none } : TaskResolve)) with
    | .ok ts => { s1 with q1 := s1.q1 ++ ts }
    | .error m => { s1 with errors := s1.errors ++ [GErr.mk m (some t.prevPath)] }

/-- One `step5_revalidate` task (lines 812-861): symmetric to restage but
feeding `step3_validate` with the task's own field type. -/
def revalStep (or : Oracle) (s : St) (t : TaskReval) : St :=
  match expandFromObject or.gem s.errors t.shouldExclude s.lastBatch t.deferredPath
      (toPath t.fieldPath) with
  | .error e => { s with errors := s.errors ++ [catchExpandErr e t.fieldPath] }
  | .ok pairs =>
    let parts := partitionJS
      (fun (pr : Path × Value) =>
        !(equivalentPathKey pr.1.head? t.fieldPath.getLast?) || isNullValue pr.2)
      pairs
    let fin := parts.1.map fun (pr : Path × Value) => (pathToArray pr.1, pr.2)
    let s1 := { s with completed := s.completed ++ fin }
    match parts.2.mapM (fun (pr : Path × Value) =>
        (walkUp t.chain (t.fieldPath.length - (pathToArray pr.1).length)).map fun ch =>
          ({ key := t.key, hasSelection := t.hasSelection, chain := ch,
             fieldType := t.fieldType, fieldValue := pr.2,
             path := pathToArray pr.1 } : TaskVal)) with
    | .ok ts => { s1 with q3 := s1.q3 ++ ts }
    | .error m => { s1 with errors := s1.errors ++ [GErr.mk m (some t.fieldPath)] }

/-- `while (step1_resolve.length) { ... shift() ... }`.  The fuel only
bounds the number of loop iterations; `none` marks exhaustion. -/
def drainQ1 (or : Oracle) : Nat → St → Option St
  | 0, s => match s.q1 with | [] => some s | _ => none
  | fuel + 1, s =>
    match s.q1 with
    | [] => some s
    | t :: rest => drainQ1 or fuel (resolveStep or { s with q1 := rest } t)

def drainQ2 (or : Oracle) : Nat → St → Option St
  | 0, s => match s.q2 with | [] => some s | _ => none
  | fuel + 1, s =>
    match s.q2 with
    | [] => some s
    | t :: rest => drainQ2 or fuel (discStep or { s with q2 := rest } t)

def drainQ3 (or : Oracle) : Nat → St → Option St
  | 0, s => match s.q3 with | [] => some s | _ => none
  | fuel + 1, s =>
    match s.q3 with
    | [] => some s
    | t :: rest => drainQ3 or fuel (valStep or { s with q3 := rest } t)

def drainQ4 (or : Oracle) : Nat → St → Option St
  | 0, s => match s.q4 with | [] => some s | _ => none
  | fuel + 1, s =>
    match s.q4 with
    | [] => some s
    | t :: rest => drainQ4 or fuel (restageStep or { s with q4 := rest } t)

def drainQ5 (or : Oracle) : Nat → St → Option St
  | 0, s => match s.q5 with | [] => some s | _ => none
  | fuel + 1, s =>
    match s.q5 with
    | [] => some s
    | t :: rest => drainQ5 or fuel (revalStep or { s with q5 := rest } t)

/-- The inner drain phase (line 358): run the three drains until all
three queues are simultaneously empty. -/
def innerDrain (or : Oracle) : Nat → St → Option St
  | 0, s => if s.q1.isEmpty && s.q2.isEmpty && s.q3.isEmpty then some s else none
  | fuel + 1, s =>
    if s.q1.isEmpty && s.q2.isEmpty && s.q3.isEmpty then some s
    else
      match drainQ1 or fuel s with
      | none => none
      | some s1 =>
        match drainQ2 or fuel s1 with
        | none => none
        | some s2 =>
          match drainQ3 or fuel s2 with
          | none => none
          | some s3 => innerDrain or fuel s3

/-- One outer-loop iteration (lines 352-871): fresh per-iteration
`step4_restage`/`step5_revalidate`/`deferredExprs`, the inner drain, one
batch call when deferred expressions accumulated followed by the restage
and revalidate drains, and the two trailing asserts.  `Except.error`
carries the states of the abrupt exits: a rejected batch call (caught by
the surrounding `try` of `execute`) or a failed assert. -/
def outerIter (or : Oracle) (fuel : Nat) (s0 : St) : Option (Except St St) :=
  match innerDrain or fuel { s0 with q4 := [], q5 := [], batch := [] } with
  | none => none
  | some s1 =>
    if s1.batch.isEmpty then
      if !s1.q4.isEmpty then
        some (.error { s1 with errors := s1.errors ++ [⟨"Expected no restage", none⟩] })
      else if !s1.q5.isEmpty then
        some (.error { s1 with errors := s1.errors ++ [⟨"Expected no backfill", none⟩] })
      else some (.ok s1)
    else
      let s2 := { s1 with batchCalls := s1.batchCalls + 1 }
      match or.batchResult s1.batchCalls with
      | .error m => some (.error { s2 with errors := s2.errors ++ [⟨m, none⟩] })
      | .ok results =>
        match drainQ4 or fuel { s2 with lastBatch := results } with
        | none => none
        | some s3 =>
          match drainQ5 or fuel s3 with
          | none => none
          | some s4 =>
            if !s4.q4.isEmpty then
              some (.error { s4 with errors := s4.errors ++ [⟨"Expected no restage", none⟩] })
            else if !s4.q5.isEmpty then
              some (.error { s4 with errors := s4.errors ++ [⟨"Expected no backfill", none⟩] })
            else some (.ok s4)

/-- A terminated run: normal completion, an abrupt exit (failed assert or
rejected batch call), or fuel exhaustion. -/
inductive RunOut where
  | done (s : St)
  | aborted (s : St)
  | fuelOut

def runExec (or : Oracle) (fuel : Nat) : Nat → St → RunOut
  | 0, _ => .fuelOut
  | n + 1, s =>
    if s.q1.isEmpty && s.q2.isEmpty && s.q3.isEmpty then .done s
    else
      match outerIter or fuel s with
      | none => .fuelOut
      | some (.error sa) => .aborted sa
      | some (.ok s1) => runExec or fuel n s1

/-- The state at entry of the outer loop: `step1_resolve` seeded with the
root fields, everything else empty. -/
def initSt (seed : List TaskResolve) : St :=
  { q1 := seed, q2 := [], q3 := [], q4 := [], q5 := [], batch := [],
    completed := [], errors := [], lastBatch := .vnull,
    batchCalls := 0, slots := 0, restaged := 0 }

/-- Projection used by the concrete witnesses. -/
def doneState (r : RunOut) (dflt : St) : St :=
  match r with
  | .done s => s
  | .aborted s => s
  | .fuelOut => dflt

/-! ### Concrete instances used by the witnesses -/

/-- A backend without `getErrorMessage`. -/
def gemNone : Value → Option String := fun _ => none

/-- The identity serializer. -/
def serIdent : Value → Except String Value := fun v => .ok v

/-- A type resolver that never resolves. -/
def trNone : Value → Option (List (String × VType)) := fun _ => none

/-- A deferred-leaf scenario: the root field resolver returns a deferred
expression of leaf type, never awaiting a wrapped value, and the backend
materialises the single batch slot to `9001`. -/
def oracleDeferredLeaf : Oracle :=
  { resolve := fun _ => (OutType.leaf "Int" true, ROutcome.val (Value.vdefer 0)),
    hasExpandAbstract := false,
    children := fun _ => [],
    exclude := fun _ => none,
    typeResolve := fun _ => true,
    childFields := fun _ => [],
    batchResult := fun _ => Except.ok (Value.varr [Value.vint 9001]),
    gem := gemNone }

def seedDeferredLeaf : List TaskResolve :=
  [{ prevPath := [], key := "foo", hasSelection := false, chain := 1,
     sourceValue := Value.vnull, shouldExclude := none, deferral := none }]

end MSE

namespace MSE

/-! ## Theorems -/

/-! ### Helper lemmas -/

/-- With an empty fingerprint set the dedupe loop appends every error and
never extends the set. -/
theorem dedupe_foldl_seen_nil (fp : GErr → String) (l : List GErr) (out : List GErr) :
    l.foldl (dedupeErrorsStep fp) ([], out) = ([], out ++ l) := by
  induction l generalizing out with
  | nil => simp
  | cons e rest ih =>
    simp only [List.foldl_cons, dedupeErrorsStep, List.contains_nil]
    simpa using ih (out ++ [e])

/-- A list prefix agrees with the longer list on every zipped position. -/
theorem zip_all_eq_of_isPrefixOf {ep l : List Seg} (h : ep <+: l) :
    ((ep.zip l).all fun p => p.1 == p.2) = true := by
  obtain ⟨t, rfl⟩ := h
  induction ep with
  | nil => simp
  | cons a rest ih => simpa using ih

/-- `didParentError` holds whenever some recorded error path is a prefix
of the queried path. -/
theorem didParentError_of_prefix {errors : List GErr} {p : List Seg} {e : GErr}
    {ep : List Seg} (he : e ∈ errors) (hpath : e.path? = some ep)
    (hpre : ep <+: p) : didParentError p errors = true := by
  unfold didParentError
  rw [List.any_eq_true]
  refine ⟨e, he, ?_⟩
  rw [hpath]
  have hlen : ep.length ≤ p.length := hpre.length_le
  simp only [if_neg (by omega : ¬ p.length < ep.length)]
  exact zip_all_eq_of_isPrefixOf hpre

/-! ### Claim theorems -/

/-- Claim C9: middleware composition via `flattenMiddleware` is
associative: flattening `[A, flatten [B, C]]` and `[flatten [A, B], C]`
onto any base yields the same function, both equal to `A (B (C base))`. -/
theorem c9_flattenMiddleware_associative {F : Type} (A B C : F → F) (base : F) :
    flattenMiddleware (.arr [A, flattenMiddleware (.arr [B, C])]) base
      = flattenMiddleware (.arr [flattenMiddleware (.arr [A, B]), C]) base
    ∧ flattenMiddleware (.arr [A, flattenMiddleware (.arr [B, C])]) base
      = A (B (C base)) :=
  ⟨rfl, rfl⟩

/-- Claim C3 (code bug): the dedupe loop of `getResult` never drops any
error, duplicate or not, because `fingerprints.add` sits behind the
short-circuiting `fingerprints.has(...) &&` and therefore never runs: the
fingerprint set stays empty forever and the returned list equals the
accumulated list, duplicates included — contradicting both the spec and
the `// dedupe errors` comment above the loop. -/
theorem c3_error_dedupe_is_noop (fp : GErr → String) (resultErrors : List GErr) :
    dedupeResultErrors fp resultErrors = resultErrors := by
  unfold dedupeResultErrors
  rw [dedupe_foldl_seen_nil]
  simp

/-- Claim C4 (code bug): the selection flattener drops an inline fragment
that has no type condition — for every fragment map, union map, concrete
type and sub-selection list, the flattened result of such a fragment is
empty, where the spec (and the GraphQL specification the executor is
meant to implement) requires the sub-selections to be included.  The
culprit is the `!node.typeCondition || !satisfiesTypeCondition(...)`
guard, which returns `[]` when the condition is absent. -/
theorem c4_inline_fragment_without_condition_dropped
    (fragmentMap : List (String × FragmentDef)) (unionMap : List (String × List String))
    (fuel : Nat) (ss : SelectionSetNode) (t : GType) :
    selectionFields fragmentMap unionMap (fuel + 1)
      [SelectionNode.inlineFragment none ss] t = .ok [] :=
  rfl

/-- Claim C5: deduplication by response key.  Two selected field nodes
sharing a response key conflict — `dedupeSelection` fails — when their
argument ASTs or directive ASTs differ after source locations are
stripped; when both are structurally identical and both carry selection
sets, the result is the single field node whose selection set is the
concatenation of the two. -/
theorem c5_dedupe_duplicate_response_keys (n1 n2 : FieldNode)
    (hkey : fieldNodeKey n1 = fieldNodeKey n2) :
    (stripLocArgs n1.arguments ≠ stripLocArgs n2.arguments →
      dedupeSelection [n1, n2] = .error (.duplicateArguments (fieldNodeKey n2)))
    ∧ (stripLocArgs n1.arguments = stripLocArgs n2.arguments →
       stripLocArgs n1.directives ≠ stripLocArgs n2.directives →
      dedupeSelection [n1, n2] = .error (.duplicateDirectives (fieldNodeKey n2)))
    ∧ (∀ a nm args dirs sels1 sels2,
        n1 = .mk a nm args dirs (some (.mk sels1)) →
        n2.selectionSet = some (.mk sels2) →
        stripLocArgs n1.arguments = stripLocArgs n2.arguments →
        stripLocArgs n1.directives = stripLocArgs n2.directives →
        dedupeSelection [n1, n2] = .ok [.mk a nm args dirs (some (.mk (sels1 ++ sels2)))]) := by
  have hlookup : [(fieldNodeKey n1, n1)].lookup (fieldNodeKey n2) = some n1 := by
    simp [List.lookup, hkey]
  refine ⟨?_, ?_, ?_⟩
  · intro hargs
    simp [dedupeSelection, dedupeSelectionGo, hlookup, hargs, Except.map]
  · intro hargs hdirs
    simp [dedupeSelection, dedupeSelectionGo, hlookup, hargs, hdirs, Except.map]
  · intro a nm args dirs sels1 sels2 hn1 hss hargs hdirs
    obtain ⟨a2, nm2, args2, dirs2, ss2⟩ := n2
    simp only [FieldNode.selectionSet] at hss
    subst hss hn1
    simp [dedupeSelection, dedupeSelectionGo, hlookup, hargs, hdirs, updateRecord,
      mergeSelectionSets, hkey, Except.map]

/-- Claim C5 witness: two identical duplicate leaf-with-selection nodes
merge into one node with concatenated selections. -/
theorem c5_witness :
    dedupeSelection
      [FieldNode.mk none "a" [] [] (some (.mk [])),
       FieldNode.mk none "a" [] [] (some (.mk []))]
      = .ok [FieldNode.mk none "a" [] [] (some (.mk ([] ++ [])))] :=
  (c5_dedupe_duplicate_response_keys
    (FieldNode.mk none "a" [] [] (some (.mk [])))
    (FieldNode.mk none "a" [] [] (some (.mk []))) rfl).2.2
    none "a" [] [] [] [] rfl rfl rfl rfl

/-- Inversion for a successful `Except` bind. -/
theorem except_bind_ok {ε α β : Type} {m : Except ε α} {f : α → Except ε β} {b : β}
    (h : (m >>= f) = .ok b) : ∃ a, m = .ok a ∧ f a = .ok b := by
  cases m with
  | error e => simp [Bind.bind, Except.bind] at h
  | ok a => exact ⟨a, rfl, by simpa [Bind.bind, Except.bind] using h⟩

/-- The matching-suffix walk only returns `done` for a null-ish value. -/
theorem walkSuffix_done_null (gem : Value → Option String) (dp : List Seg) :
    ∀ (keys : List Seg) (i : Nat) (cur : Value) (pre suf : Path) (p2 : Path) (v : Value),
      walkSuffix gem dp keys i cur pre suf = .ok (.done p2 v) → isNullValue v = true := by
  intro keys
  induction keys with
  | nil => intro i cur pre suf p2 v h; simp [walkSuffix] at h
  | cons key rest ih =>
    intro i cur pre suf p2 v h
    simp only [walkSuffix] at h
    by_cases hn : isNullValue cur
    · rw [if_pos hn] at h
      simp only [Except.ok.injEq, WalkOut.done.injEq] at h
      exact h.2 ▸ hn
    · rw [if_neg hn] at h
      cases hg : gem cur with
      | some m => rw [hg] at h; simp at h
      | none =>
        rw [hg] at h
        cases suf with
        | nil => simp at h
        | cons k suf2 => exact ih _ _ _ _ _ _ h

/-- An early `done` outcome of the descent core is always a null-ish
value (the two early returns of lines 129-131 and 133-136). -/
theorem expandCore_done_null (gem : Value → Option String) (obj : Value)
    (dp : List Seg) (p : Path) (pre : Path) (v : Value)
    (hcore : expandCore gem obj dp p = .ok (.done pre v)) : isNullValue v = true := by
  simp only [expandCore] at hcore
  obtain ⟨moved, hm, h2⟩ := except_bind_ok hcore
  obtain ⟨obj1, hs, h3⟩ := except_bind_ok h2
  by_cases hn : isNullValue obj1
  · rw [if_pos hn] at h3
    simp only [Pure.pure, Except.pure, Except.ok.injEq, WalkOut.done.injEq] at h3
    exact h3.2 ▸ hn
  · rw [if_neg hn] at h3
    exact walkSuffix_done_null gem _ _ _ _ _ _ _ _ h3

/-- Claim C6 (safety): with a non-empty deferred path whose
list-placeholder count differs from the hinting output path's — given
that neither the exclusion predicate nor a previously recorded parent
error prunes the call — `expandFromObject` throws a host-language `Error`
(a panic), not a GraphQL result error. -/
theorem c6_mismatched_placeholder_counts_panic
    (gem : Value → Option String) (resultErrors : List GErr)
    (se : Option (List Seg → Value → Bool)) (obj : Value) (dp : List Seg) (p : Path)
    (hex : applyExclude se dp obj = false)
    (hpe : didParentError (pathToArray p) resultErrors = false)
    (hne : dp ≠ [])
    (hcnt : (dp.filter (· == listPlaceholder)).length
        ≠ ((pathToArray p).filter (· == listPlaceholder)).length) :
    expandFromObject gem resultErrors se obj dp p
      = .error (.host "expandFromObject: arraysFromPath !== arraysFromDeferred") := by
  obtain ⟨k, tl, rfl⟩ : ∃ k tl, dp = k :: tl := by
    cases dp with
    | nil => exact absurd rfl hne
    | cons k tl => exact ⟨k, tl, rfl⟩
  simp [expandFromObject, expandGo, hex, hpe, hcnt]

/-- Claim C6 witness: a deferred path with one placeholder against an
empty output path panics. -/
theorem c6_witness :
    expandFromObject gemNone [] none Value.vnull [listPlaceholder] []
      = .error (.host "expandFromObject: arraysFromPath !== arraysFromDeferred") :=
  c6_mismatched_placeholder_counts_panic gemNone [] none Value.vnull [listPlaceholder] []
    rfl rfl (by decide) (by decide)

/-- Claim C8 (temporal): once an error whose path is a prefix of (or
equal to) the task's output path has been recorded, `expandFromObject`
returns no pairs at all for that task, so the restage and revalidate
drains (which partition its output) receive nothing to requeue. -/
theorem c8_recorded_error_suppresses_expansion
    (gem : Value → Option String) (resultErrors : List GErr)
    (se : Option (List Seg → Value → Bool)) (obj : Value) (dp : List Seg) (p : Path)
    (e : GErr) (ep : List Seg) (he : e ∈ resultErrors) (hpath : e.path? = some ep)
    (hpre : ep <+: pathToArray p) :
    expandFromObject gem resultErrors se obj dp p = .ok []
    ∧ ∀ (q : Path × Value → Bool), partitionJS q ([] : List (Path × Value)) = ([], []) := by
  have hdpe := didParentError_of_prefix he hpath hpre
  refine ⟨?_, fun q => rfl⟩
  by_cases hx : applyExclude se dp obj
  · cases dp <;> simp [expandFromObject, expandGo, hx]
  · cases dp <;> simp [expandFromObject, expandGo, hx, hdpe]

/-- Claim C8 witness: an error recorded at `["a"]` silences a task whose
output path is `["a", "b"]`. -/
theorem c8_witness :
    expandFromObject gemNone [⟨"boom", some [Seg.s "a"]⟩] none
      (Value.vobj []) [Seg.n 0] [Seg.s "b", Seg.s "a"] = .ok [] :=
  (c8_recorded_error_suppresses_expansion gemNone [⟨"boom", some [Seg.s "a"]⟩] none
    (Value.vobj []) [Seg.n 0] [Seg.s "b", Seg.s "a"]
    ⟨"boom", some [Seg.s "a"]⟩ [Seg.s "a"] (by simp) rfl ⟨[Seg.s "b"], rfl⟩).1

/-- Claim C7: the null short-circuit of the path-expand walk.  With
matching placeholder counts (and none of the early prunes firing), a
null/undefined value encountered at any step of the descent makes
`expandFromObject` emit exactly one pair, carrying the output path
accumulated so far and that very value, and it does not descend further:
(i) the walk loop stops at the first null-ish object with the current
output prefix; (ii) an early `done` outcome always carries a null-ish
value; (iii)/(iv) whenever the descent core ends early at a null (or
leaves a null-ish object after the walk), the whole call returns exactly
that single pair and never reaches the per-element array fan-out. -/
theorem c7_null_short_circuit
    (gem : Value → Option String) (resultErrors : List GErr)
    (se : Option (List Seg → Value → Bool)) (obj : Value) (dp : List Seg) (p : Path)
    (hex : applyExclude se dp obj = false)
    (hpe : didParentError (pathToArray p) resultErrors = false)
    (hne : dp ≠ [])
    (hcnt : (dp.filter (· == listPlaceholder)).length
        = ((pathToArray p).filter (· == listPlaceholder)).length)
    (hmid : ¬(1 < (dp.filter (· == listPlaceholder)).length ∧
        dp.drop (dp.findIdx (· == listPlaceholder) + 1)
          ≠ (pathToArray p).drop ((pathToArray p).findIdx (· == listPlaceholder) + 1))) :
    (∀ (key : Seg) (rest : List Seg) (i : Nat) (cur : Value) (pre suf : Path),
      isNullValue cur = true →
      walkSuffix gem dp (key :: rest) i cur pre suf = .ok (.done pre cur))
    ∧ (∀ (pre : Path) (v : Value),
        expandCore gem obj dp p = .ok (.done pre v) → isNullValue v = true)
    ∧ (∀ (pre : Path) (v : Value),
        expandCore gem obj dp p = .ok (.done pre v) →
        expandFromObject gem resultErrors se obj dp p = .ok [(pre, v)])
    ∧ (∀ (cur : Value) (pre suf : Path),
        expandCore gem obj dp p = .ok (.cont cur pre suf) → isNullValue cur = true →
        expandFromObject gem resultErrors se obj dp p = .ok [(pre, cur)]) := by
  obtain ⟨k, tl, rfl⟩ : ∃ k tl, dp = k :: tl := by
    cases dp with
    | nil => exact absurd rfl hne
    | cons k tl => exact ⟨k, tl, rfl⟩
  refine ⟨?_, ?_, ?_, ?_⟩
  · intro key rest i cur pre suf hn
    simp [walkSuffix, hn]
  · intro pre v hcore
    exact expandCore_done_null gem obj (k :: tl) p pre v hcore
  · intro pre v hcore
    simp only [ne_eq, not_and, not_not] at hmid
    rw [hcnt] at hmid
    simp [expandFromObject, expandGo, hex, hpe, hcnt, hmid, hcore]
    intro hgt
    simpa using hmid hgt
  · intro cur pre suf hcore hn
    simp only [ne_eq, not_and, not_not] at hmid
    rw [hcnt] at hmid
    simp [expandFromObject, expandGo, hex, hpe, hcnt, hmid, hcore, hn]
    intro hgt
    simpa using hmid hgt

/-- Claim C7 witness: the repository's own `null in path` test input — a
null at `foo` inside the first array element collapses to the single pair
`(["asdf", "foo"], null)`. -/
theorem c7_witness :
    expandFromObject gemNone [] none (Value.varr [Value.vobj [("foo", Value.vnull)]])
      [Seg.n 0, Seg.s "foo", Seg.s "bar"] [Seg.s "bar", Seg.s "foo", Seg.s "asdf"]
      = .ok [([Seg.s "foo", Seg.s "asdf"], Value.vnull)] :=
  (c7_null_short_circuit gemNone [] none (Value.varr [Value.vobj [("foo", Value.vnull)]])
    [Seg.n 0, Seg.s "foo", Seg.s "bar"] [Seg.s "bar", Seg.s "foo", Seg.s "asdf"]
    rfl rfl (by decide) (by decide) (by decide)).2.2.1
    [Seg.s "foo", Seg.s "asdf"] Value.vnull rfl

/-- `zipJS` coincides with the standard `List.zip` (pairing the i-th
elements of its arguments, truncated to the shorter length). -/
theorem zipJS_eq_zip {α β : Type} (a : List α) (b : List β) : zipJS a b = List.zip a b := by
  apply List.ext_get
  · simp [zipJS, List.length_zip]
  · intro n h1 h2
    simp only [zipJS, List.get_map, List.get_attach, List.get_range, List.get_zip]

/-- Writing some other entry leaves position `j` unchanged. -/
theorem setEntryValue_get?_ne (l : List (Value × List Seg)) (i : Nat) (v : Value)
    (j : Nat) (hij : i ≠ j) : (setEntryValue l i v).get? j = l.get? j := by
  simp only [setEntryValue, List.get?_eq_getElem?, List.getElem?_map, List.getElem?_enum]
  cases l[j]? with
  | none => rfl
  | some e => simp [Option.map, Ne.symm hij]

/-- A fold of entry writes at indices all different from `j` leaves
position `j` unchanged. -/
theorem foldl_setEntryValue_get?_ne (ups : List (Nat × Value)) :
    ∀ (es : List (Value × List Seg)) (j : Nat), (∀ u ∈ ups, u.1 ≠ j) →
      (ups.foldl (fun es pr => setEntryValue es pr.1 pr.2) es).get? j = es.get? j := by
  induction ups with
  | nil => intro es j _; rfl
  | cons u rest ih =>
    intro es j hall
    rw [List.foldl_cons, ih _ j (fun x hx => hall x (List.mem_cons_of_mem u hx)),
      setEntryValue_get?_ne _ _ _ _ (hall u (List.mem_cons_self u rest))]

/-- The first component of a zip member lies in the left list truncated
to the right list's length. -/
theorem fst_mem_take_of_mem_zip {α β : Type} :
    ∀ {l : List α} {r : List β} {x : α} {y : β},
      (x, y) ∈ l.zip r → x ∈ l.take r.length := by
  intro l
  induction l with
  | nil => intro r x y h; simp [List.zip] at h
  | cons a l2 ih =>
    intro r x y h
    cases r with
    | nil => simp [List.zip] at h
    | cons b r2 =>
      simp only [List.zip_cons_cons, List.mem_cons] at h
      rcases h with h | h
      · cases h
        simp
      · simp only [List.length_cons, List.take_succ_cons, List.mem_cons]
        exact Or.inr (ih h)

/-- The deferred-entry indices are pairwise distinct (they are a sublist
of `range entries.length`). -/
theorem originalIndices_nodup (isDef : Value → Bool) (entries : List (Value × List Seg)) :
    (((entries.enum).filter fun p => isDef p.2.1).map fun p => p.1).Nodup := by
  have hsub : ((entries.enum).filter fun p => isDef p.2.1).Sublist entries.enum :=
    List.filter_sublist _
  have hmap := hsub.map Prod.fst
  rw [List.enum_map_fst] at hmap
  exact (List.nodup_range entries.length).sublist
    (by simpa using hmap)

/-- Claim C10: `zip` returns exactly `min (|a|, |b|)` pairs whose i-th
entry holds `a[i]` and `b[i]` (it equals the standard `List.zip`);
consequently, when `backend.resolveDeferredValues` returns fewer results
than there are deferred entries, the `#step2_evaluate` drain installs
only that prefix of the deferred slots — the entries at the remaining
deferred indices stay untouched — and records no error. -/
theorem c10_zip_truncates_and_installs_prefix :
    (∀ {α β : Type} (a : List α) (b : List β),
      (zipJS a b).length = min a.length b.length ∧ zipJS a b = List.zip a b)
    ∧ (∀ (isDef : Value → Bool) (entries : List (Value × List Seg))
        (results : List Value) (resultErrors : List GErr),
        (evaluatePhase isDef entries results resultErrors).2 = resultErrors)
    ∧ (∀ (isDef : Value → Bool) (entries : List (Value × List Seg))
        (results : List Value) (j : Nat),
        j ∈ ((((entries.enum).filter fun p => isDef p.2.1).map fun p => p.1).drop
          results.length) →
        (installDeferredResults isDef entries results).get? j = entries.get? j) := by
  refine ⟨?_, fun _ _ _ _ => rfl, ?_⟩
  · intro α β a b
    refine ⟨?_, zipJS_eq_zip a b⟩
    rw [zipJS_eq_zip, List.length_zip]
  · intro isDef entries results j hj
    unfold installDeferredResults
    set O := (((entries.enum).filter fun p => isDef p.2.1).map fun p => p.1) with hO
    apply foldl_setEntryValue_get?_ne
    intro u hu
    rw [zipJS_eq_zip] at hu
    have hmem : u.1 ∈ O.take results.length := fst_mem_take_of_mem_zip (by
      simpa using hu)
    intro hEq
    exact (List.disjoint_take_drop (originalIndices_nodup isDef entries) le_rfl)
      hmem (hEq ▸ hj)

/-- Claim C10 witness: three entries, two deferred, but a single backend
result — only the first deferred slot is touched and the index of the
second deferred entry (2) keeps its original value. -/
theorem c10_witness :
    2 ∈ (((([(Value.vint 1, ([] : List Seg)), (Value.vdefer 0, []),
          (Value.vdefer 1, [])].enum).filter
          fun p => isDeferredValue p.2.1).map fun p => p.1).drop
          [Value.vint 7].length)
    ∧ (installDeferredResults isDeferredValue
        [(Value.vint 1, []), (Value.vdefer 0, []), (Value.vdefer 1, [])]
        [Value.vint 7]).get? 2
      = [(Value.vint 1, ([] : List Seg)), (Value.vdefer 0, []), (Value.vdefer 1, [])].get? 2 :=
  ⟨by decide, c10_zip_truncates_and_installs_prefix.2.2 isDeferredValue
    [(Value.vint 1, []), (Value.vdefer 0, []), (Value.vdefer 1, [])]
    [Value.vint 7] 2 (by decide)⟩

/-- A null value under a `NonNull` type always validates to the value
`null` (with the recorded error when fuel remains, with the thrown
fuel-exhaustion marker otherwise — the enclosing per-field catch turns
both into a `null` field value). -/
theorem validate_nonNull_null_cases (gem : Value → Option String)
    (ser : Value → Except String Value) (tr : Value → Option (List (String × VType)))
    (hgemn : gem .vnull = none) (tk : VType) :
    ∀ (f : Nat) (pp : List Seg),
      (validateValue gem ser tr f Value.vnull (.nonNull tk) pp).2 = .ok Value.vnull
      ∨ ∃ e, (validateValue gem ser tr f Value.vnull (.nonNull tk) pp).2 = .error e := by
  intro f pp
  cases f with
  | zero => exact Or.inr ⟨_, rfl⟩
  | succ m => exact Or.inl (by simp [validateValue, hgemn, isNullValue])

/-- Claim C2 counterexample: field `f : Int!` is null inside the single
element of a nullable-element list `items`.  Exactly one error is
recorded at `["items", 0, "f"]`, but the nearest nullable ancestor — the
list element at `["items", 0]` — does not evaluate to `null`: the
`result.filter((v) => v !== null)` of the list branch removes the element
altogether, so the list comes back empty. -/
theorem c2_counterexample :
    validateValue gemNone serIdent trNone 5
      (.varr [.vobj [("f", .vnull)]])
      (.vlist (.objectT [("f", .nonNull (.scalarT "Int"))])) [.s "items"]
      = ([⟨"Cannot return null for non-nullable field",
           some [Seg.s "items", Seg.n 0, Seg.s "f"]⟩],
         .ok (.varr [])) := rfl

/-- Claim C2 as amended: for every field of type `NonNull(T)` whose value
is null the validator records exactly one "Cannot return null for
non-nullable field" error whose path is that field's output path, and the
null propagates through `NonNull` wrappers and object layers without
further errors until a nullable ancestor; a nullable *object field*
ancestor evaluates to `null` in the returned data, but a nullable *list
element* ancestor is removed from its list instead of evaluating to
`null`.  The conjuncts: (A) the error site; (B) nullable types absorb
null silently; (C) `NonNull` is transparent for non-null values; (D) an
object holding a `NonNull` field whose value is null evaluates to null;
(E) a nullable object field keeps the null; (F) a nullable list element
that validated to null is dropped from the list. -/
theorem c2_nonnull_null_propagation (gem : Value → Option String)
    (ser : Value → Except String Value) (tr : Value → Option (List (String × VType)))
    (hgemn : gem .vnull = none) :
    (∀ (fuel : Nat) (t : VType) (p : List Seg),
      validateValue gem ser tr (fuel + 1) .vnull (.nonNull t) p
        = ([⟨"Cannot return null for non-nullable field", some p⟩], .ok .vnull))
    ∧ (∀ (fuel : Nat) (t : VType) (p : List Seg), isNonNullT t = false →
      validateValue gem ser tr (fuel + 1) .vnull t p = ([], .ok .vnull))
    ∧ (∀ (fuel : Nat) (v : Value) (t : VType) (p : List Seg),
        isNullValue v = false → gem v = none →
      validateValue gem ser tr (fuel + 1) v (.nonNull t) p
        = validateValue gem ser tr fuel v t p)
    ∧ (∀ (fuel : Nat) (v : Value) (fields : List (String × VType)) (p : List Seg)
        (k : String) (tk : VType),
        isNullValue v = false → gem v = none →
        (k, VType.nonNull tk) ∈ fields → getProp v (Seg.s k) = .vnull →
      (validateValue gem ser tr (fuel + 1) v (.objectT fields) p).2 = .ok .vnull)
    ∧ (∀ (fuel : Nat) (v : Value) (k : String) (tk : VType) (p : List Seg),
        isNullValue v = false → gem v = none → isNonNullT tk = false →
        (validateValue gem ser tr fuel (getPropOpt v (Seg.s k)) tk (p ++ [Seg.s k])).2
          = .ok .vnull →
      (validateValue gem ser tr (fuel + 1) v (.objectT [(k, tk)]) p).2
        = .ok (.vobj [(k, .vnull)]))
    ∧ (∀ (fuel : Nat) (t : VType) (p : List Seg),
        isNonNullT t = false → gem (.varr [.vnull]) = none →
        validateValue gem ser tr fuel .vnull t (p ++ [Seg.n 0]) = ([], .ok .vnull) →
      (validateValue gem ser tr (fuel + 1) (.varr [.vnull]) (.vlist t) p).2
        = .ok (.varr [])) := by
  have hB : ∀ (fuel : Nat) (t : VType) (p : List Seg), isNonNullT t = false →
      validateValue gem ser tr (fuel + 1) .vnull t p = ([], .ok .vnull) := by
    intro fuel t p hnn
    cases t with
    | nonNull t2 => simp [isNonNullT] at hnn
    | vlist t2 => simp [validateValue, hgemn, isNullValue]
    | scalarT nm => simp [validateValue, hgemn, isNullValue]
    | enumT nm => simp [validateValue, hgemn, isNullValue]
    | objectT fs => simp [validateValue, hgemn, isNullValue]
    | abstractT nm => simp [validateValue, hgemn, isNullValue]
  refine ⟨?_, hB, ?_, ?_, ?_, ?_⟩
  · intro fuel t p
    simp [validateValue, hgemn, isNullValue]
  · intro fuel v t p hv hg
    simp [validateValue, hg, hv]
  · intro fuel v fields p k tk hv hg hmem hnullk
    have hprop : getPropOpt v (Seg.s k) = Value.vnull := by
      simp [getPropOpt, hv, hnullk]
    simp only [validateValue, hg, hv, Bool.false_eq_true, if_false]
    split
    · rfl
    · next h =>
        exfalso
        apply h
        rw [List.any_eq_true]
        refine ⟨_, List.mem_map.mpr ⟨(k, .nonNull tk), hmem, rfl⟩, ?_⟩
        rcases validate_nonNull_null_cases gem ser tr hgemn tk fuel (p ++ [Seg.s k])
          with hc | ⟨e, hc⟩ <;>
          simp [hprop, hc, isNonNullT, isNullValue]
  · intro fuel v k tk p hv hg hnn hval
    simp only [validateValue, hg, hv, Bool.false_eq_true, if_false,
      List.map_cons, List.map_nil]
    rw [hval]
    cases tk with
    | nonNull t2 => simp [isNonNullT] at hnn
    | vlist t2 => simp [hnn, isNullValue]
    | scalarT nm => simp [hnn, isNullValue]
    | enumT nm => simp [hnn, isNullValue]
    | objectT fs => simp [hnn, isNullValue]
    | abstractT nm => simp [hnn, isNullValue]
  · intro fuel t p hnn hgarr h1
    simp only [validateValue, hgarr, isNullValue, Bool.false_eq_true, if_false,
      List.enum, List.enumFrom, List.map_cons, List.map_nil]
    rw [h1]
    simp [List.findSome?, List.filterMap, hnn, isNullValue]

/-- Claim C2 witness: the amended statement applied to the standard
backend instances — a null under `Int!` at path `["x"]` records exactly
the one expected error and evaluates to null. -/
theorem c2_witness :
    validateValue gemNone serIdent trNone 1 .vnull (.nonNull (.scalarT "Int")) [Seg.s "x"]
      = ([⟨"Cannot return null for non-nullable field", some [Seg.s "x"]⟩], .ok .vnull) :=
  (c2_nonnull_null_propagation gemNone serIdent trNone rfl).1 0 (.scalarT "Int") [Seg.s "x"]

/-! ### Scheduler lemmas for Claim C1 -/

/-- A validate task whose named type is a leaf (well-formed). -/
def LeafVal (t : TaskVal) : Prop :=
  isLeafT (namedType t.fieldType) = true ∧ wfT t.fieldType = true

/-- A revalidate task is always leaf-named and well-formed. -/
def RevalOk (t : TaskReval) : Prop :=
  isLeafT (namedType t.fieldType) = true ∧ wfT t.fieldType = true

theorem setSlot_length (b : List (Value × List Seg)) (i : Nat) (v : Value) :
    (setSlot b i v).length = b.length := by
  simp [setSlot]

theorem resolveStep_q1 (or : Oracle) (s : St) (t : TaskResolve) :
    (resolveStep or s t).q1 = s.q1 := by
  unfold resolveStep
  repeat' split
  all_goals rfl

theorem resolveStep_q3 (or : Oracle) (s : St) (t : TaskResolve) :
    (resolveStep or s t).q3 = s.q3 := by
  unfold resolveStep
  repeat' split
  all_goals rfl

theorem resolveStep_q5 (or : Oracle) (s : St) (t : TaskResolve) :
    (resolveStep or s t).q5 = s.q5 := by
  unfold resolveStep
  repeat' split
  all_goals rfl

theorem resolveStep_calls (or : Oracle) (s : St) (t : TaskResolve) :
    (resolveStep or s t).batchCalls = s.batchCalls := by
  unfold resolveStep
  repeat' split
  all_goals rfl

theorem resolveStep_restaged (or : Oracle) (s : St) (t : TaskResolve) :
    (resolveStep or s t).restaged = s.restaged := by
  unfold resolveStep
  repeat' split
  all_goals rfl

theorem resolveStep_slots (or : Oracle) (s : St) (t : TaskResolve) :
    (resolveStep or s t).slots = s.slots := by
  unfold resolveStep
  repeat' split
  all_goals rfl

theorem resolveStep_batch_len (or : Oracle) (s : St) (t : TaskResolve) :
    (resolveStep or s t).batch.length = s.batch.length := by
  unfold resolveStep
  repeat' split
  all_goals simp [setSlot_length]

theorem resolveStep_q4 (or : Oracle) (s : St) (t : TaskResolve)
    (h : (or.resolve t).2 ≠ ROutcome.nextStage) :
    (resolveStep or s t).q4 = s.q4 := by
  unfold resolveStep
  rcases hr : or.resolve t with ⟨ft, out⟩
  rw [hr] at h
  cases out with
  | val v => rfl
  | nextStage => exact absurd rfl h
  | err m => rfl

theorem pushChildren_q2 (s : St) (t : TaskDisc) (cs : List Child) (dp : List Seg)
    (slot : Nat) (ex : Option (List Seg → Value → Bool)) :
    (pushChildren s t cs dp slot ex).q2 = s.q2 := by
  unfold pushChildren
  repeat' split
  all_goals rfl

theorem pushChildren_frame (s : St) (t : TaskDisc) (cs : List Child) (dp : List Seg)
    (slot : Nat) (ex : Option (List Seg → Value → Bool)) :
    (pushChildren s t cs dp slot ex).q3 = s.q3
    ∧ (pushChildren s t cs dp slot ex).q4 = s.q4
    ∧ (pushChildren s t cs dp slot ex).q5 = s.q5
    ∧ (pushChildren s t cs dp slot ex).batch = s.batch
    ∧ (pushChildren s t cs dp slot ex).batchCalls = s.batchCalls
    ∧ (pushChildren s t cs dp slot ex).restaged = s.restaged
    ∧ (pushChildren s t cs dp slot ex).slots = s.slots := by
  unfold pushChildren
  repeat' split
  all_goals exact ⟨rfl, rfl, rfl, rfl, rfl, rfl, rfl⟩

theorem discStep_q2 (or : Oracle) (s : St) (t : TaskDisc) :
    (discStep or s t).q2 = s.q2 := by
  unfold discStep
  repeat' split
  all_goals simp [pushChildren_q2]

theorem discStep_q4 (or : Oracle) (s : St) (t : TaskDisc) :
    (discStep or s t).q4 = s.q4 := by
  unfold discStep
  repeat' split
  all_goals simp [(pushChildren_frame _ _ _ _ _ _).2.1]

theorem discStep_calls (or : Oracle) (s : St) (t : TaskDisc) :
    (discStep or s t).batchCalls = s.batchCalls := by
  unfold discStep
  repeat' split
  all_goals simp [(pushChildren_frame _ _ _ _ _ _).2.2.2.2.1]

theorem discStep_restaged (or : Oracle) (s : St) (t : TaskDisc) :
    (discStep or s t).restaged = s.restaged := by
  unfold discStep
  repeat' split
  all_goals simp [(pushChildren_frame _ _ _ _ _ _).2.2.2.2.2.1]

theorem discStep_batch_slots (or : Oracle) (s : St) (t : TaskDisc) :
    (discStep or s t).batch.length + s.slots = s.batch.length + (discStep or s t).slots
    ∧ s.slots ≤ (discStep or s t).slots := by
  unfold discStep
  repeat' split
  all_goals
    simp [(pushChildren_frame _ _ _ _ _ _).2.2.2.1,
      (pushChildren_frame _ _ _ _ _ _).2.2.2.2.2.2, setSlot_length]
  all_goals omega

theorem discStep_q5_mem (or : Oracle) (s : St) (t : TaskDisc) :
    ∀ x ∈ (discStep or s t).q5, x ∈ s.q5 ∨
      (x.fieldType = t.fieldType ∧ isLeafT (namedType t.fieldType) = true) := by
  unfold discStep
  repeat' split
  all_goals intro x hx
  all_goals simp only [(pushChildren_frame _ _ _ _ _ _).2.2.1] at hx <;>
    first
      | exact Or.inl hx
      | (rcases List.mem_append.mp hx with hx | hx
         · exact Or.inl hx
         · rw [List.mem_singleton] at hx
           subst hx
           exact Or.inr ⟨rfl, by assumption⟩)

theorem valStep_frame (or : Oracle) (s : St) (t : TaskVal) :
    (valStep or s t).q2 = s.q2 ∧ (valStep or s t).q4 = s.q4 ∧ (valStep or s t).q5 = s.q5
    ∧ (valStep or s t).batch = s.batch ∧ (valStep or s t).batchCalls = s.batchCalls
    ∧ (valStep or s t).restaged = s.restaged ∧ (valStep or s t).slots = s.slots := by
  unfold valStep valStepPeeled
  dsimp only
  repeat' split
  all_goals exact ⟨rfl, rfl, rfl, rfl, rfl, rfl, rfl⟩

theorem valStep_leaf_q1 (or : Oracle) (s : St) (t : TaskVal) (ht : LeafVal t) :
    (valStep or s t).q1 = s.q1 := by
  obtain ⟨hleaf, hwf⟩ := ht
  unfold valStep valStepPeeled
  dsimp only
  cases hft : t.fieldType with
  | nonNull inner =>
    rw [hft] at hleaf hwf
    cases inner with
    | nonNull x => simp [wfT] at hwf
    | list e =>
      dsimp only
      repeat' split
      all_goals rfl
    | leaf nm sc =>
      dsimp only
      repeat' split
      all_goals first | rfl | simp_all [isLeafT]
    | object nm => simp [namedType, isLeafT] at hleaf
    | abstract nm => simp [namedType, isLeafT] at hleaf
  | list e =>
    dsimp only
    repeat' split
    all_goals rfl
  | leaf nm sc =>
    dsimp only
    repeat' split
    all_goals first | rfl | simp_all [isLeafT]
  | object nm => rw [hft] at hleaf; simp [namedType, isLeafT] at hleaf
  | abstract nm => rw [hft] at hleaf; simp [namedType, isLeafT] at hleaf

theorem valStep_q3_mem (or : Oracle) (s : St) (t : TaskVal) :
    ∀ x ∈ (valStep or s t).q3, x ∈ s.q3 ∨
      (namedType x.fieldType = namedType t.fieldType ∧
        (wfT t.fieldType = true → wfT x.fieldType = true)) := by
  unfold valStep valStepPeeled
  dsimp only
  repeat' split
  all_goals intro x hx
  all_goals
    first
      | exact Or.inl hx
      | (rcases List.mem_append.mp hx with hx | hx
         · exact Or.inl hx
         · rcases List.mem_map.mp hx with ⟨pr, hpr, hxe⟩
           subst hxe
           refine Or.inr ⟨?_, ?_⟩ <;> simp_all [namedType, wfT])

theorem restageStep_frame (or : Oracle) (s : St) (t : TaskRestage) :
    (restageStep or s t).q2 = s.q2 ∧ (restageStep or s t).q3 = s.q3
    ∧ (restageStep or s t).q4 = s.q4 ∧ (restageStep or s t).q5 = s.q5
    ∧ (restageStep or s t).batch = s.batch
    ∧ (restageStep or s t).batchCalls = s.batchCalls
    ∧ (restageStep or s t).slots = s.slots
    ∧ (restageStep or s t).restaged = s.restaged + 1 := by
  unfold restageStep
  dsimp only
  repeat' split
  all_goals exact ⟨rfl, rfl, rfl, rfl, rfl, rfl, rfl, rfl⟩

theorem revalStep_frame (or : Oracle) (s : St) (t : TaskReval) :
    (revalStep or s t).q1 = s.q1 ∧ (revalStep or s t).q2 = s.q2
    ∧ (revalStep or s t).q4 = s.q4 ∧ (revalStep or s t).q5 = s.q5
    ∧ (revalStep or s t).batch = s.batch
    ∧ (revalStep or s t).batchCalls = s.batchCalls
    ∧ (revalStep or s t).restaged = s.restaged
    ∧ (revalStep or s t).slots = s.slots := by
  unfold revalStep
  dsimp only
  repeat' split
  all_goals exact ⟨rfl, rfl, rfl, rfl, rfl, rfl, rfl, rfl⟩

theorem exceptMapM_ok_mem {α β : Type} (f : α → Except String β) :
    ∀ (l : List α) (ys : List β), List.mapM' f l = Except.ok ys →
      ∀ y ∈ ys, ∃ a ∈ l, f a = Except.ok y := by
  intro l
  induction l with
  | nil =>
    intro ys h y hy
    simp only [List.mapM', pure, Except.pure] at h
    cases h
    simp at hy
  | cons a as ih =>
    intro ys h y hy
    simp only [List.mapM'] at h
    cases hfa : f a with
    | error m => rw [hfa] at h; simp [Bind.bind, Except.bind] at h
    | ok b =>
      rw [hfa] at h
      cases hrest : List.mapM' f as with
      | error m => rw [hrest] at h; simp [Bind.bind, Except.bind] at h
      | ok bs =>
        rw [hrest] at h
        simp only [Bind.bind, Except.bind, pure, Except.pure, Except.ok.injEq] at h
        subst h
        rcases List.mem_cons.mp hy with rfl | hy
        · exact ⟨a, List.mem_cons_self a as, hfa⟩
        · rcases ih bs hrest y hy with ⟨x, hxl, hfx⟩
          exact ⟨x, List.mem_cons_of_mem a hxl, hfx⟩

theorem revalStep_q3_mem (or : Oracle) (s : St) (t : TaskReval) :
    ∀ x ∈ (revalStep or s t).q3, x ∈ s.q3 ∨ x.fieldType = t.fieldType := by
  unfold revalStep
  dsimp only
  repeat' split
  all_goals intro x hx
  all_goals
    first
      | exact Or.inl hx
      | (rcases List.mem_append.mp hx with hl | hr
         · exact Or.inl hl
         · rename_i ts heq
           rw [← List.mapM'_eq_mapM] at heq
           rcases exceptMapM_ok_mem _ _ _ heq x hr with ⟨pr, hpr, hfx⟩
           cases hw : walkUp t.chain (t.fieldPath.length - (pathToArray pr.1).length) with
           | error m => rw [hw] at hfx; simp [Except.map] at hfx
           | ok ch =>
             rw [hw] at hfx
             simp only [Except.map, Except.ok.injEq] at hfx
             subst hfx
             exact Or.inr rfl)

theorem resolveStep_q2_mem (or : Oracle) (s : St) (t : TaskResolve) :
    ∀ x ∈ (resolveStep or s t).q2, x ∈ s.q2 ∨ x.fieldType = (or.resolve t).1 := by
  unfold resolveStep
  dsimp only
  repeat' split
  all_goals intro x hx
  all_goals
    first
      | exact Or.inl hx
      | (rcases List.mem_append.mp hx with hl | hr
         · exact Or.inl hl
         · rw [List.mem_singleton] at hr
           subst hr
           right
           simp_all)

theorem drainQ1_nil (or : Oracle) (fuel : Nat) (s : St) (h : s.q1 = []) :
    drainQ1 or fuel s = some s := by
  cases fuel <;> simp [drainQ1, h]

theorem drainQ2_nil (or : Oracle) (fuel : Nat) (s : St) (h : s.q2 = []) :
    drainQ2 or fuel s = some s := by
  cases fuel <;> simp [drainQ2, h]

theorem drainQ4_nil (or : Oracle) (fuel : Nat) (s : St) (h : s.q4 = []) :
    drainQ4 or fuel s = some s := by
  cases fuel <;> simp [drainQ4, h]

theorem drainQ1_spec (or : Oracle) :
    ∀ fuel s s2, drainQ1 or fuel s = some s2 →
      s2.q3 = s.q3 ∧ s2.q5 = s.q5 ∧ s2.batchCalls = s.batchCalls
      ∧ s2.restaged = s.restaged ∧ s2.slots = s.slots
      ∧ s2.batch.length = s.batch.length
      ∧ ((∀ u, (or.resolve u).2 ≠ ROutcome.nextStage) → s2.q4 = s.q4)
      ∧ ((∀ u, wfT (or.resolve u).1 = true) →
          (∀ x ∈ s.q2, wfT x.fieldType = true) → ∀ x ∈ s2.q2, wfT x.fieldType = true)
      ∧ s2.q1 = [] := by
  intro fuel
  induction fuel with
  | zero =>
    intro s s2 h
    unfold drainQ1 at h
    cases hq : s.q1 with
    | nil =>
      rw [hq] at h
      cases h
      exact ⟨rfl, rfl, rfl, rfl, rfl, rfl, fun _ => rfl, fun _ h2 => h2, hq⟩
    | cons a l => rw [hq] at h; cases h
  | succ n ih =>
    intro s s2 h
    unfold drainQ1 at h
    cases hq : s.q1 with
    | nil =>
      rw [hq] at h
      cases h
      exact ⟨rfl, rfl, rfl, rfl, rfl, rfl, fun _ => rfl, fun _ h2 => h2, hq⟩
    | cons a l =>
      rw [hq] at h
      obtain ⟨h3, h5, hc, hr, hs, hb, h4, h2, h1⟩ := ih _ _ h
      refine ⟨?_, ?_, ?_, ?_, ?_, ?_, ?_, ?_, h1⟩
      · rw [h3, resolveStep_q3]
      · rw [h5, resolveStep_q5]
      · rw [hc, resolveStep_calls]
      · rw [hr, resolveStep_restaged]
      · rw [hs, resolveStep_slots]
      · rw [hb, resolveStep_batch_len]
      · intro hns
        rw [h4 hns, resolveStep_q4 _ _ _ (hns a)]
      · intro hwf h2s
        refine h2 hwf ?_
        intro x hx
        rcases resolveStep_q2_mem or { s with q1 := l } a x hx with hmem | hft
        · exact h2s x hmem
        · rw [hft]; exact hwf a

theorem drainQ2_spec (or : Oracle) :
    ∀ fuel s s2, drainQ2 or fuel s = some s2 →
      s2.q4 = s.q4 ∧ s2.batchCalls = s.batchCalls ∧ s2.restaged = s.restaged
      ∧ s2.batch.length + s.slots = s.batch.length + s2.slots
      ∧ s.slots ≤ s2.slots
      ∧ ((∀ x ∈ s.q2, wfT x.fieldType = true) → (∀ x ∈ s.q5, RevalOk x) →
          ∀ x ∈ s2.q5, RevalOk x)
      ∧ s2.q2 = [] := by
  intro fuel
  induction fuel with
  | zero =>
    intro s s2 h
    unfold drainQ2 at h
    cases hq : s.q2 with
    | nil =>
      rw [hq] at h
      cases h
      exact ⟨rfl, rfl, rfl, rfl, Nat.le_refl _, fun _ h5 => h5, hq⟩
    | cons a l => rw [hq] at h; cases h
  | succ n ih =>
    intro s s2 h
    unfold drainQ2 at h
    cases hq : s.q2 with
    | nil =>
      rw [hq] at h
      cases h
      exact ⟨rfl, rfl, rfl, rfl, Nat.le_refl _, fun _ h5 => h5, hq⟩
    | cons a l =>
      rw [hq] at h
      obtain ⟨h4, hc, hr, hsync, hmono, h5, h2⟩ := ih _ _ h
      have hstep := discStep_batch_slots or { s with q2 := l } a
      refine ⟨?_, ?_, ?_, ?_, ?_, ?_, h2⟩
      · rw [h4, discStep_q4]
      · rw [hc, discStep_calls]
      · rw [hr, discStep_restaged]
      · have := hstep.1
        simp only [St.mk.injEq] at hsync this ⊢
        omega
      · exact Nat.le_trans hstep.2 hmono
      · intro hw2 hw5
        refine h5 ?_ ?_
        · intro x hx
          rw [discStep_q2] at hx
          exact hw2 x (hq ▸ List.mem_cons_of_mem a hx)
        · intro x hx
          rcases discStep_q5_mem or { s with q2 := l } a x hx with hmem | ⟨hft, hleaf⟩
          · exact hw5 x hmem
          · have hwa : wfT a.fieldType = true := hw2 a (hq ▸ List.mem_cons_self a l)
            exact ⟨hft ▸ hleaf, hft ▸ hwa⟩

theorem drainQ3_spec (or : Oracle) :
    ∀ fuel s s2, drainQ3 or fuel s = some s2 →
      s2.q2 = s.q2 ∧ s2.q4 = s.q4 ∧ s2.q5 = s.q5 ∧ s2.batch = s.batch
      ∧ s2.batchCalls = s.batchCalls ∧ s2.restaged = s.restaged ∧ s2.slots = s.slots
      ∧ ((∀ x ∈ s.q3, LeafVal x) → s2.q1 = s.q1)
      ∧ s2.q3 = [] := by
  intro fuel
  induction fuel with
  | zero =>
    intro s s2 h
    unfold drainQ3 at h
    cases hq : s.q3 with
    | nil =>
      rw [hq] at h
      cases h
      exact ⟨rfl, rfl, rfl, rfl, rfl, rfl, rfl, fun _ => rfl, hq⟩
    | cons a l => rw [hq] at h; cases h
  | succ n ih =>
    intro s s2 h
    unfold drainQ3 at h
    cases hq : s.q3 with
    | nil =>
      rw [hq] at h
      cases h
      exact ⟨rfl, rfl, rfl, rfl, rfl, rfl, rfl, fun _ => rfl, hq⟩
    | cons a l =>
      rw [hq] at h
      obtain ⟨h2, h4, h5, hb, hc, hr, hs, h1, h3⟩ := ih _ _ h
      have hstep := valStep_frame or { s with q3 := l } a
      refine ⟨?_, ?_, ?_, ?_, ?_, ?_, ?_, ?_, h3⟩
      · rw [h2, hstep.1]
      · rw [h4, hstep.2.1]
      · rw [h5, hstep.2.2.1]
      · rw [hb, hstep.2.2.2.1]
      · rw [hc, hstep.2.2.2.2.1]
      · rw [hr, hstep.2.2.2.2.2.1]
      · rw [hs, hstep.2.2.2.2.2.2]
      · intro hlv
        have hla : LeafVal a := hlv a (hq ▸ List.mem_cons_self a l)
        rw [h1 ?_, valStep_leaf_q1 or _ a hla]
        intro x hx
        rcases valStep_q3_mem or { s with q3 := l } a x hx with hmem | ⟨hnm, hwfi⟩
        · exact hlv x (hq ▸ List.mem_cons_of_mem a hmem)
        · exact ⟨hnm ▸ hla.1, hwfi hla.2⟩

theorem drainQ4_spec (or : Oracle) :
    ∀ fuel s s2, drainQ4 or fuel s = some s2 →
      s2.q2 = s.q2 ∧ s2.q3 = s.q3 ∧ s2.q5 = s.q5 ∧ s2.batch = s.batch
      ∧ s2.batchCalls = s.batchCalls ∧ s2.slots = s.slots
      ∧ s.restaged ≤ s2.restaged ∧ s2.q4 = []
      ∧ (s.q4 = [] → s2 = s)
      ∧ (s.q4 ≠ [] → s.restaged < s2.restaged) := by
  intro fuel
  induction fuel with
  | zero =>
    intro s s2 h
    unfold drainQ4 at h
    cases hq : s.q4 with
    | nil =>
      rw [hq] at h
      cases h
      exact ⟨rfl, rfl, rfl, rfl, rfl, rfl, Nat.le_refl _, hq, fun _ => rfl,
        fun hne => absurd rfl hne⟩
    | cons a l => rw [hq] at h; cases h
  | succ n ih =>
    intro s s2 h
    unfold drainQ4 at h
    cases hq : s.q4 with
    | nil =>
      rw [hq] at h
      cases h
      exact ⟨rfl, rfl, rfl, rfl, rfl, rfl, Nat.le_refl _, hq, fun _ => rfl,
        fun hne => absurd rfl hne⟩
    | cons a l =>
      rw [hq] at h
      obtain ⟨h2, h3, h5, hb, hc, hs, hr, h4, _, _⟩ := ih _ _ h
      have hstep := restageStep_frame or { s with q4 := l } a
      have hst : (restageStep or { s with q4 := l } a).restaged = s.restaged + 1 :=
        hstep.2.2.2.2.2.2.2
      have hrg : s.restaged < s2.restaged := by omega
      refine ⟨?_, ?_, ?_, ?_, ?_, ?_, Nat.le_of_lt hrg, h4, ?_, fun _ => hrg⟩
      · rw [h2, hstep.1]
      · rw [h3, hstep.2.1]
      · rw [h5, hstep.2.2.2.1]
      · rw [hb, hstep.2.2.2.2.1]
      · rw [hc, hstep.2.2.2.2.2.1]
      · rw [hs, hstep.2.2.2.2.2.2.1]
      · intro hnil
        exact absurd hnil (List.cons_ne_nil a l)

theorem drainQ5_spec (or : Oracle) :
    ∀ fuel s s2, drainQ5 or fuel s = some s2 →
      s2.q1 = s.q1 ∧ s2.q2 = s.q2 ∧ s2.q4 = s.q4 ∧ s2.batch = s.batch
      ∧ s2.batchCalls = s.batchCalls ∧ s2.restaged = s.restaged ∧ s2.slots = s.slots
      ∧ s2.q5 = []
      ∧ ((∀ x ∈ s.q5, RevalOk x) →
          ∀ x ∈ s2.q3, x ∈ s.q3 ∨ LeafVal x) := by
  intro fuel
  induction fuel with
  | zero =>
    intro s s2 h
    unfold drainQ5 at h
    cases hq : s.q5 with
    | nil =>
      rw [hq] at h
      cases h
      exact ⟨rfl, rfl, rfl, rfl, rfl, rfl, rfl, hq, fun _ x hx => Or.inl hx⟩
    | cons a l => rw [hq] at h; cases h
  | succ n ih =>
    intro s s2 h
    unfold drainQ5 at h
    cases hq : s.q5 with
    | nil =>
      rw [hq] at h
      cases h
      exact ⟨rfl, rfl, rfl, rfl, rfl, rfl, rfl, hq, fun _ x hx => Or.inl hx⟩
    | cons a l =>
      rw [hq] at h
      obtain ⟨h1, h2, h4, hb, hc, hr, hs, h5, h3⟩ := ih _ _ h
      have hstep := revalStep_frame or { s with q5 := l } a
      refine ⟨?_, ?_, ?_, ?_, ?_, ?_, ?_, h5, ?_⟩
      · rw [h1, hstep.1]
      · rw [h2, hstep.2.1]
      · rw [h4, hstep.2.2.1]
      · rw [hb, hstep.2.2.2.2.1]
      · rw [hc, hstep.2.2.2.2.2.1]
      · rw [hr, hstep.2.2.2.2.2.2.1]
      · rw [hs, hstep.2.2.2.2.2.2.2]
      · intro hok x hx
        have hoka : RevalOk a := hok a (hq ▸ List.mem_cons_self a l)
        have hstepok : ∀ y ∈ (revalStep or { s with q5 := l } a).q5, RevalOk y := by
          intro y hy
          rw [hstep.2.2.2.1] at hy
          exact hok y (hq ▸ List.mem_cons_of_mem a hy)
        rcases h3 hstepok x hx with hmem | hlv
        · rcases revalStep_q3_mem or { s with q5 := l } a x hmem with hm | hft
          · exact Or.inl hm
          · exact Or.inr ⟨hft ▸ hoka.1, hft ▸ hoka.2⟩
        · exact Or.inr hlv

theorem innerDrain_spec (or : Oracle) :
    ∀ fuel s s2, innerDrain or fuel s = some s2 →
      s2.q1 = [] ∧ s2.q2 = [] ∧ s2.q3 = []
      ∧ s2.batchCalls = s.batchCalls ∧ s2.restaged = s.restaged
      ∧ s2.batch.length + s.slots = s.batch.length + s2.slots
      ∧ s.slots ≤ s2.slots
      ∧ ((∀ u, (or.resolve u).2 ≠ ROutcome.nextStage) → s2.q4 = s.q4)
      ∧ ((∀ u, wfT (or.resolve u).1 = true) →
          (∀ x ∈ s.q2, wfT x.fieldType = true) → (∀ x ∈ s.q5, RevalOk x) →
          ∀ x ∈ s2.q5, RevalOk x)
      ∧ (s.q1 = [] → s.q2 = [] → (∀ x ∈ s.q3, LeafVal x) →
          s2.batch = s.batch ∧ s2.q4 = s.q4 ∧ s2.q5 = s.q5 ∧ s2.slots = s.slots) := by
  intro fuel
  induction fuel with
  | zero =>
    intro s s2 h
    unfold innerDrain at h
    split at h
    · next hemp =>
        cases h
        simp only [Bool.and_eq_true, List.isEmpty_iff] at hemp
        exact ⟨hemp.1.1, hemp.1.2, hemp.2, rfl, rfl, rfl, Nat.le_refl _, fun _ => rfl,
          fun _ _ h5 => h5, fun _ _ _ => ⟨rfl, rfl, rfl, rfl⟩⟩
    · cases h
  | succ n ih =>
    intro s s2 h
    unfold innerDrain at h
    split at h
    · next hemp =>
        cases h
        simp only [Bool.and_eq_true, List.isEmpty_iff] at hemp
        exact ⟨hemp.1.1, hemp.1.2, hemp.2, rfl, rfl, rfl, Nat.le_refl _, fun _ => rfl,
          fun _ _ h5 => h5, fun _ _ _ => ⟨rfl, rfl, rfl, rfl⟩⟩
    · split at h
      · cases h
      next m1 hm1 =>
        split at h
        · cases h
        next m2 hm2 =>
          split at h
          · cases h
          next m3 hm3 =>
            obtain ⟨i1, i2, i3, ic, ir, isync, imono, i4, i5, istage⟩ := ih m3 s2 h
            obtain ⟨d1q3, d1q5, d1c, d1r, d1s, d1b, d1q4, d1w2, d1q1⟩ :=
              drainQ1_spec or n s m1 hm1
            obtain ⟨d2q4, d2c, d2r, d2sync, d2mono, d2w5, d2q2⟩ :=
              drainQ2_spec or n m1 m2 hm2
            obtain ⟨d3q2, d3q4, d3q5, d3b, d3c, d3r, d3s, d3q1, d3q3⟩ :=
              drainQ3_spec or n m2 m3 hm3
            have d3blen : m3.batch.length = m2.batch.length := by rw [d3b]
            refine ⟨i1, i2, i3, ?_, ?_, ?_, ?_, ?_, ?_, ?_⟩
            · rw [ic, d3c, d2c, d1c]
            · rw [ir, d3r, d2r, d1r]
            · omega
            · omega
            · intro hns
              rw [i4 hns, d3q4, d2q4, d1q4 hns]
            · intro hwf hw2 hw5
              refine i5 hwf ?_ ?_
              · intro x hx
                rw [d3q2, d2q2] at hx
                cases hx
              · intro x hx
                rw [d3q5] at hx
                refine d2w5 (d1w2 hwf hw2) ?_ x hx
                intro y hy
                rw [d1q5] at hy
                exact hw5 y hy
            · intro hs1 hs2 hs3
              have hm1s : m1 = s := by
                have h' := hm1
                rw [drainQ1_nil or n s hs1] at h'
                exact (Option.some.inj h').symm
              subst hm1s
              have hm2s : m2 = m1 := by
                have h' := hm2
                rw [drainQ2_nil or n m1 hs2] at h'
                exact (Option.some.inj h').symm
              subst hm2s
              obtain ⟨ib, i4e, i5e, ise⟩ :=
                istage (by rw [d3q1 hs3, hs1]) (by rw [d3q2, hs2])
                  (fun x hx => absurd (d3q3 ▸ hx) (List.not_mem_nil x))
              exact ⟨by rw [ib, d3b], by rw [i4e, d3q4], by rw [i5e, d3q5],
                by rw [ise, d3s]⟩

theorem outerIter_stage (or : Oracle) (fuel : Nat) (s0 s2 : St)
    (h1 : s0.q1 = []) (h2 : s0.q2 = []) (h3 : ∀ x ∈ s0.q3, LeafVal x)
    (h : outerIter or fuel s0 = some (Except.ok s2)) :
    s2.batchCalls = s0.batchCalls ∧ s2.restaged = s0.restaged ∧ s2.slots = s0.slots
    ∧ s2.q1 = [] ∧ s2.q2 = [] ∧ s2.q3 = [] := by
  unfold outerIter at h
  split at h
  · cases h
  next s1 hin =>
    obtain ⟨i1, i2, i3, ic, ir, isync, imono, i4, i5, istage⟩ :=
      innerDrain_spec or fuel _ s1 hin
    obtain ⟨ib, i4e, i5e, ise⟩ := istage h1 h2 h3
    have hb0 : s1.batch = [] := ib
    have hq40 : s1.q4 = [] := i4e
    have hq50 : s1.q5 = [] := i5e
    split at h
    next hbe =>
      split at h
      next h4ne => simp at h
      next h4e =>
        split at h
        next h5ne => simp at h
        next h5e =>
          simp only [Option.some.injEq, Except.ok.injEq] at h
          subst h
          exact ⟨ic, ir, ise, i1, i2, i3⟩
    next hbne =>
      exact absurd (by simp [hb0]) hbne

theorem outerIter_noNS (or : Oracle) (fuel : Nat) (s0 s2 : St)
    (hns : ∀ u, (or.resolve u).2 ≠ ROutcome.nextStage)
    (hwf : ∀ u, wfT (or.resolve u).1 = true)
    (hq2 : s0.q2 = [])
    (h : outerIter or fuel s0 = some (Except.ok s2)) :
    s0.batchCalls ≤ s2.batchCalls ∧ s2.batchCalls ≤ s0.batchCalls + 1
    ∧ (s0.slots < s2.slots → s0.batchCalls < s2.batchCalls)
    ∧ s0.slots ≤ s2.slots
    ∧ s2.q1 = [] ∧ s2.q2 = [] ∧ (∀ x ∈ s2.q3, LeafVal x) := by
  unfold outerIter at h
  split at h
  · cases h
  next s1 hin =>
    obtain ⟨i1, i2, i3, ic, ir, isync, imono, i4, i5, istage⟩ :=
      innerDrain_spec or fuel _ s1 hin
    have ic' : s1.batchCalls = s0.batchCalls := ic
    have isync' : s1.batch.length + s0.slots = 0 + s1.slots := isync
    have imono' : s0.slots ≤ s1.slots := imono
    have hq4 : s1.q4 = [] := i4 hns
    have hq5ok : ∀ x ∈ s1.q5, RevalOk x := by
      refine i5 hwf ?_ ?_
      · intro x hx
        have hx' : x ∈ s0.q2 := hx
        rw [hq2] at hx'
        exact absurd hx' (List.not_mem_nil x)
      · intro x hx
        exact absurd hx (List.not_mem_nil x)
    split at h
    next hbe =>
      split at h
      next h4ne => simp at h
      next h4e =>
        split at h
        next h5ne => simp at h
        next h5e =>
          simp only [Option.some.injEq, Except.ok.injEq] at h
          subst h
          have hb0 : s1.batch = [] := List.isEmpty_iff.mp hbe
          have hlen : s1.batch.length = 0 := by rw [hb0]; rfl
          refine ⟨Nat.le_of_eq ic'.symm, ?_, ?_, ?_, i1, i2, ?_⟩
          · omega
          · intro hlt
            omega
          · omega
          · intro x hx
            rw [i3] at hx
            exact absurd hx (List.not_mem_nil x)
    next hbne =>
      dsimp only at h
      split at h
      next m hb => simp at h
      next results hb =>
        split at h
        · cases h
        next s3 hd4 =>
          have d4 := drainQ4_spec or fuel _ s3 hd4
          have hs3 : s3 = { s1 with batchCalls := s1.batchCalls + 1, lastBatch := results } :=
            d4.2.2.2.2.2.2.2.2.1 hq4
          split at h
          · cases h
          next s4 hd5 =>
            have d5 := drainQ5_spec or fuel s3 s4 hd5
            split at h
            next => simp at h
            next =>
              split at h
              next => simp at h
              next =>
                simp only [Option.some.injEq, Except.ok.injEq] at h
                subst h
                have hc4 : s4.batchCalls = s0.batchCalls + 1 := by
                  rw [d5.2.2.2.2.1, hs3]
                  show s1.batchCalls + 1 = s0.batchCalls + 1
                  rw [ic']
                have hsl : s4.slots = s1.slots := by
                  rw [d5.2.2.2.2.2.2.1, hs3]
                have hq1 : s4.q1 = [] := by
                  rw [d5.1, hs3]
                  show s1.q1 = []
                  exact i1
                have hq2f : s4.q2 = [] := by
                  rw [d5.2.1, hs3]
                  show s1.q2 = []
                  exact i2
                refine ⟨?_, ?_, ?_, ?_, hq1, hq2f, ?_⟩
                · omega
                · omega
                · intro _
                  omega
                · omega
                · intro x hx
                  have hmem := d5.2.2.2.2.2.2.2.2 ?_ x hx
                  · rcases hmem with hm | hlv
                    · rw [hs3] at hm
                      have hm' : x ∈ s1.q3 := hm
                      rw [i3] at hm'
                      exact absurd hm' (List.not_mem_nil x)
                    · exact hlv
                  · intro y hy
                    rw [hs3] at hy
                    exact hq5ok y hy

theorem outerIter_general (or : Oracle) (fuel : Nat) (s0 s2 : St)
    (hwf : ∀ u, wfT (or.resolve u).1 = true)
    (hq2 : s0.q2 = [])
    (h : outerIter or fuel s0 = some (Except.ok s2)) :
    s0.batchCalls ≤ s2.batchCalls ∧ s2.batchCalls ≤ s0.batchCalls + 1
    ∧ s0.restaged ≤ s2.restaged ∧ s2.q2 = []
    ∧ (s2.restaged = s0.restaged →
        s2.q1 = [] ∧ (∀ x ∈ s2.q3, LeafVal x)) := by
  unfold outerIter at h
  split at h
  · cases h
  next s1 hin =>
    obtain ⟨i1, i2, i3, ic, ir, isync, imono, i4, i5, istage⟩ :=
      innerDrain_spec or fuel _ s1 hin
    have ic' : s1.batchCalls = s0.batchCalls := ic
    have ir' : s1.restaged = s0.restaged := ir
    have hq5ok : ∀ x ∈ s1.q5, RevalOk x := by
      refine i5 hwf ?_ ?_
      · intro x hx
        have hx' : x ∈ s0.q2 := hx
        rw [hq2] at hx'
        exact absurd hx' (List.not_mem_nil x)
      · intro x hx
        exact absurd hx (List.not_mem_nil x)
    split at h
    next hbe =>
      split at h
      next h4ne => simp at h
      next h4e =>
        split at h
        next h5ne => simp at h
        next h5e =>
          simp only [Option.some.injEq, Except.ok.injEq] at h
          subst h
          refine ⟨Nat.le_of_eq ic'.symm, by omega, Nat.le_of_eq ir'.symm, i2, ?_⟩
          intro _
          refine ⟨i1, ?_⟩
          intro x hx
          rw [i3] at hx
          exact absurd hx (List.not_mem_nil x)
    next hbne =>
      dsimp only at h
      split at h
      next m hb => simp at h
      next results hb =>
        split at h
        · cases h
        next s3 hd4 =>
          have d4 := drainQ4_spec or fuel _ s3 hd4
          have hs3r : s1.restaged ≤ s3.restaged := d4.2.2.2.2.2.2.1
          have hs3q2 : s3.q2 = s1.q2 := d4.1
          split at h
          · cases h
          next s4 hd5 =>
            have d5 := drainQ5_spec or fuel s3 s4 hd5
            split at h
            next => simp at h
            next =>
              split at h
              next => simp at h
              next =>
                simp only [Option.some.injEq, Except.ok.injEq] at h
                subst h
                have hc3 : s3.batchCalls = s1.batchCalls + 1 := d4.2.2.2.2.1
                have hc4 : s4.batchCalls = s3.batchCalls := d5.2.2.2.2.1
                have hr4 : s4.restaged = s3.restaged := d5.2.2.2.2.2.1
                have hq2f : s4.q2 = [] := by
                  rw [d5.2.1, hs3q2]
                  exact i2
                refine ⟨by omega, by omega, by omega, hq2f, ?_⟩
                intro hre
                have hq4e : s1.q4 = [] := by
                  by_contra hne
                  have hstrict : s1.restaged < s3.restaged :=
                    d4.2.2.2.2.2.2.2.2.2 hne
                  omega
                have hs3 : s3 =
                    { s1 with batchCalls := s1.batchCalls + 1, lastBatch := results } :=
                  d4.2.2.2.2.2.2.2.2.1 hq4e
                have hq1 : s4.q1 = [] := by
                  rw [d5.1, hs3]
                  show s1.q1 = []
                  exact i1
                refine ⟨hq1, ?_⟩
                intro x hx
                have hmem := d5.2.2.2.2.2.2.2.2 ?_ x hx
                · rcases hmem with hm | hlv
                  · rw [hs3] at hm
                    have hm' : x ∈ s1.q3 := hm
                    rw [i3] at hm'
                    exact absurd hm' (List.not_mem_nil x)
                  · exact hlv
                · intro y hy
                  rw [hs3] at hy
                  exact hq5ok y hy

theorem runExec_stage (or : Oracle) (fuel : Nat) :
    ∀ n s sf, s.q1 = [] → s.q2 = [] → (∀ x ∈ s.q3, LeafVal x) →
      runExec or fuel n s = RunOut.done sf →
      sf.batchCalls = s.batchCalls ∧ sf.restaged = s.restaged ∧ sf.slots = s.slots := by
  intro n
  induction n with
  | zero =>
    intro s sf h1 h2 h3 h
    unfold runExec at h
    cases h
  | succ n ih =>
    intro s sf h1 h2 h3 h
    unfold runExec at h
    split at h
    · cases h
      exact ⟨rfl, rfl, rfl⟩
    · split at h
      next hnone => cases h
      next sa hoe => cases h
      next s1 hoi =>
        obtain ⟨oc, orr, os, o1, o2, o3⟩ := outerIter_stage or fuel s s1 h1 h2 h3 hoi
        obtain ⟨fc, fr, fs⟩ := ih s1 sf o1 o2
          (fun x hx => absurd (o3 ▸ hx) (List.not_mem_nil x)) h
        exact ⟨by rw [fc, oc], by rw [fr, orr], by rw [fs, os]⟩

theorem runExec_noNS (or : Oracle) (fuel : Nat)
    (hns : ∀ u, (or.resolve u).2 ≠ ROutcome.nextStage)
    (hwf : ∀ u, wfT (or.resolve u).1 = true) :
    ∀ n s sf, s.q2 = [] → runExec or fuel n s = RunOut.done sf →
      s.batchCalls ≤ sf.batchCalls ∧ sf.batchCalls ≤ s.batchCalls + 1
      ∧ (s.slots < sf.slots → s.batchCalls < sf.batchCalls) := by
  intro n
  cases n with
  | zero =>
    intro s sf _ h
    unfold runExec at h
    cases h
  | succ n =>
    intro s sf hq2 h
    unfold runExec at h
    split at h
    · cases h
      exact ⟨Nat.le_refl _, Nat.le_succ _, fun hlt => absurd hlt (Nat.lt_irrefl _)⟩
    · split at h
      next hnone => cases h
      next sa hoe => cases h
      next s1 hoi =>
        obtain ⟨o1c, o2c, o3c, o4s, oq1, oq2, oq3⟩ :=
          outerIter_noNS or fuel s s1 hns hwf hq2 hoi
        obtain ⟨fc, fr, fs⟩ := runExec_stage or fuel n s1 sf oq1 oq2 oq3 h
        refine ⟨by omega, by omega, ?_⟩
        intro hlt
        have hs1 : s.slots < s1.slots := by omega
        have := o3c hs1
        omega

theorem runExec_general (or : Oracle) (fuel : Nat)
    (hwf : ∀ u, wfT (or.resolve u).1 = true) :
    ∀ n s sf, s.q2 = [] → runExec or fuel n s = RunOut.done sf →
      s.restaged ≤ sf.restaged ∧
      (sf.batchCalls ≤ s.batchCalls + 1 ∨ s.restaged < sf.restaged) := by
  intro n
  induction n with
  | zero =>
    intro s sf _ h
    unfold runExec at h
    cases h
  | succ n ih =>
    intro s sf hq2 h
    unfold runExec at h
    split at h
    · cases h
      exact ⟨Nat.le_refl _, Or.inl (Nat.le_succ _)⟩
    · split at h
      next hnone => cases h
      next sa hoe => cases h
      next s1 hoi =>
        obtain ⟨g1, g2, g3, gq2, gcond⟩ := outerIter_general or fuel s s1 hwf hq2 hoi
        obtain ⟨f1, f2⟩ := ih s1 sf gq2 h
        by_cases hre : s1.restaged = s.restaged
        · obtain ⟨hq1, hq3⟩ := gcond hre
          obtain ⟨fc, fr, fs⟩ := runExec_stage or fuel n s1 sf hq1 gq2 hq3 h
          exact ⟨by omega, Or.inl (by omega)⟩
        · have hlt : s.restaged < s1.restaged :=
            Nat.lt_of_le_of_ne g3 (fun e => hre e.symm)
          exact ⟨by omega, Or.inr (by omega)⟩

/-- C1: in the scheduler of `createExecuteFn` (src/unnamed/part_000), for
every run from an initial state that terminates normally: (1) if no
resolver outcome is ever `NEXT_STAGE` (no resolver awaits a wrapped
value), `backend.resolveDeferredValues` is called at most once, and
exactly once as soon as at least one deferred expression was accumulated
(one batch slot allocated); and (2) in any run, a second batch call can
only occur together with at least one restage, i.e. two or more batch
calls force a `step4_restage` task to have been processed. -/
theorem c1_single_batch_without_restage :
    (∀ (or : Oracle) (innerFuel outerFuel : Nat) (seed : List TaskResolve) (sf : St),
      (∀ u, (or.resolve u).2 ≠ ROutcome.nextStage) →
      (∀ u, wfT (or.resolve u).1 = true) →
      runExec or innerFuel outerFuel (initSt seed) = RunOut.done sf →
      sf.batchCalls ≤ 1 ∧ (1 ≤ sf.slots → sf.batchCalls = 1))
    ∧ (∀ (or : Oracle) (innerFuel outerFuel : Nat) (seed : List TaskResolve) (sf : St),
      (∀ u, wfT (or.resolve u).1 = true) →
      runExec or innerFuel outerFuel (initSt seed) = RunOut.done sf →
      2 ≤ sf.batchCalls → 1 ≤ sf.restaged) := by
  constructor
  · intro or innerFuel outerFuel seed sf hns hwf h
    obtain ⟨hle, hub, hsl⟩ :=
      runExec_noNS or innerFuel hns hwf outerFuel (initSt seed) sf rfl h
    have h0c : (initSt seed).batchCalls = 0 := rfl
    have h0s : (initSt seed).slots = 0 := rfl
    constructor
    · omega
    · intro hslots
      have hlt : (initSt seed).slots < sf.slots := by omega
      have := hsl hlt
      omega
  · intro or innerFuel outerFuel seed sf hwf h hcalls
    obtain ⟨f1, f2⟩ :=
      runExec_general or innerFuel hwf outerFuel (initSt seed) sf rfl h
    have h0c : (initSt seed).batchCalls = 0 := rfl
    have h0r : (initSt seed).restaged = 0 := rfl
    omega

/-- Witness for C1: the concrete single-deferred-leaf run terminates with
one allocated slot and exactly one batch call. -/
theorem c1_witness :
    (doneState (runExec oracleDeferredLeaf 16 16 (initSt seedDeferredLeaf))
        (initSt seedDeferredLeaf)).slots = 1
    ∧ (doneState (runExec oracleDeferredLeaf 16 16 (initSt seedDeferredLeaf))
        (initSt seedDeferredLeaf)).batchCalls ≤ 1
    ∧ (1 ≤ (doneState (runExec oracleDeferredLeaf 16 16 (initSt seedDeferredLeaf))
          (initSt seedDeferredLeaf)).slots →
        (doneState (runExec oracleDeferredLeaf 16 16 (initSt seedDeferredLeaf))
          (initSt seedDeferredLeaf)).batchCalls = 1) :=
  ⟨rfl,
   (c1_single_batch_without_restage.1 oracleDeferredLeaf 16 16 seedDeferredLeaf _
      (fun u h => ROutcome.noConfusion h) (fun u => rfl) rfl).1,
   (c1_single_batch_without_restage.1 oracleDeferredLeaf 16 16 seedDeferredLeaf _
      (fun u h => ROutcome.noConfusion h) (fun u => rfl) rfl).2⟩

end MSE